import Mathlib

/-!
# jorum: a process-wide service registry with event fan-out

A shallow embedding of `jorum.go`.  The package-level variables become the
fields of `State`; every exported function becomes a function on `State`.
Channels are references: a channel is a natural number and its buffered
contents live in a heap, one heap per Go channel type.  Goroutines started by
`Ready` are records in the state and are scheduled by the executable step
function `step`.
-/

namespace Jorum

/-! ## Values -/

/-- A non-nil Go `error` value.  `errorString` is what `fmt.Errorf` returns for
a format without `%w`; `wrapError` is what it returns for a format with `%w`:
the formatted message together with the wrapped cause. -/
inductive Err where
  | errorString (s : String)
  | wrapError (msg : String) (err : Err)
  deriving DecidableEq, Repr

/-- The method `Error()` of an error value. -/
def Err.Error : Err → String
  | .errorString s => s
  | .wrapError msg _ => msg

/-- The method `Unwrap()` of an error value (`errors.Unwrap`). -/
def Err.Unwrap : Err → Option Err
  | .errorString _ => none
  | .wrapError _ err => some err

/-- The Go interface type `error`: `none` is the nil error. -/
abbrev GoError := Option Err

/-- The struct `ErrorEvent`. -/
structure ErrorEvent where
  Name : String
  Error : GoError
  deriving DecidableEq, Repr

/-- The struct `InfoEvent`. -/
structure InfoEvent where
  Name : String
  Message : String
  deriving DecidableEq, Repr

/-- The four event categories. -/
inductive Kind where
  | error
  | warn
  | close
  | info
  deriving DecidableEq, Repr

/-- The dynamic value held by a non-nil `interface{}`: an identity and the
method set of its dynamic type.  `onErrorer` says whether the type asserts to
`OnErrorer`, and so on; `closer` is `none` when the type is not an `io.Closer`
and `some r` when it is and its `Close()` returns `r`. -/
structure ServiceVal where
  ident : Nat
  onErrorer : Bool
  onWarner : Bool
  onCloser : Bool
  onInfoer : Bool
  closer : Option GoError
  deriving DecidableEq, Repr

/-- A value of type `interface{}`: `none` is the nil interface. -/
abbrev Service := Option ServiceVal

/-- The type assertions `service.(OnErrorer)`, `service.(OnWarner)`,
`service.(OnCloser)`, `service.(OnInfoer)`: the `ok` result.  A nil interface
asserts to nothing. -/
def implements (k : Kind) (service : Service) : Bool :=
  match service with
  | none => false
  | some v =>
    match k with
    | .error => v.onErrorer
    | .warn => v.onWarner
    | .close => v.onCloser
    | .info => v.onInfoer

/-- The type assertion `service.(io.Closer)`: `none` when it fails, otherwise
the result that the service's `Close()` returns. -/
def asCloser (service : Service) : Option GoError :=
  match service with
  | none => none
  | some v => v.closer

/-- Calls made into the services, events handed to the broadcast layer and
sends on the subscribers' channels, in the order in which they happen:
`setter` is a call `on.OnError(ch)`, `on.OnWarn(ch)`, `on.OnClose(ch)` or
`on.OnInfo(ch)`; `closeCall` is a call `c.Close()`; `errorEmitted` and
`infoEmitted` are the entries into `emitError`, `emitWarn`, `emitClose` and
`emitInfo`; `errorSend` and `infoSend` are single send statements `ch <- ev`. -/
inductive Effect where
  | setter (k : Kind) (name : String) (ch : Nat)
  | closeCall (name : String)
  | errorEmitted (k : Kind) (ev : ErrorEvent)
  | infoEmitted (ev : InfoEvent)
  | errorSend (ch : Nat) (ev : ErrorEvent)
  | infoSend (ch : Nat) (ev : InfoEvent)
  deriving DecidableEq, Repr

/-- A goroutine started by `Ready`: the category of its loop, the `name` and
`ch` it was started with, and whether it is still in its loop. -/
structure Worker where
  kind : Kind
  name : String
  ch : Nat
  running : Bool
  deriving DecidableEq, Repr

/-! ## Go maps and channels -/

/-- The map index expression `m[name]` with the comma-ok result. -/
def mapGet {V : Type} : List (String × V) → String → Option V
  | [], _ => none
  | (k, v) :: m, name => if k = name then some v else mapGet m name

/-- The entries of a map under keys other than `name`. -/
def mapErase {V : Type} : List (String × V) → String → List (String × V)
  | [], _ => []
  | (k, v) :: m, name => if k = name then mapErase m name else (k, v) :: mapErase m name

/-- The map assignment `m[name] = v`. -/
def mapSet {V : Type} (m : List (String × V)) (name : String) (v : V) : List (String × V) :=
  (name, v) :: mapErase m name

/-- The contents of every channel of one element type. -/
abbrev Heap (α : Type) := Nat → List α

/-- Replace the contents of channel `ch`. -/
def Heap.set {α : Type} (q : Heap α) (ch : Nat) (l : List α) : Heap α :=
  fun c => if c = ch then l else q c

/-- The send statement `ch <- ev` on a channel that has room. -/
def Heap.send {α : Type} (q : Heap α) (ch : Nat) (ev : α) : Heap α :=
  q.set ch (q ch ++ [ev])

/-- The loop `for _, ch := range chs { ch <- ev }` on the heap and the trace:
each iteration sends `ev` on `ch` and records the send `sent ch ev`. -/
def sendAll {α : Type} (sent : Nat → α → Effect) :
    List Nat → α → Heap α × List Effect → Heap α × List Effect
  | [], _, r => r
  | ch :: chs, ev, r => sendAll sent chs ev (r.1.send ch ev, r.2 ++ [sent ch ev])

/-! ## The state -/

/-- The package-level variables, the channel heaps and the goroutines.

* `jorum`, `servicesErrorChs`, ..., `infoChs` are the variables of the same
  names; `abortClosed` says whether `abortCh` has been closed.
* `nextChan` is the next channel that `make` returns.
* `errQ` holds the contents of the `chan error` channels, `strQ` those of the
  `chan string` channels.  `errorEventQ` and `infoEventQ` hold, for the
  `chan ErrorEvent` and `chan InfoEvent` channels of the subscribers, the
  sequence of events sent on them; a send on them never blocks.
* `workers` are the goroutines started by `Ready`.
* `closing` is the rest of the iteration of a `Close` call in progress.
* `panicked` says whether the process has died of a panic.
* `trace` is the sequence of effects so far. -/
structure State where
  jorum : List (String × Service)
  servicesErrorChs : List (String × Nat)
  servicesWarnChs : List (String × Nat)
  servicesCloseChs : List (String × Nat)
  servicesInfoChs : List (String × Nat)
  errorChs : List Nat
  warnChs : List Nat
  closeChs : List Nat
  infoChs : List Nat
  abortClosed : Bool
  nextChan : Nat
  errQ : Heap GoError
  strQ : Heap String
  errorEventQ : Heap ErrorEvent
  infoEventQ : Heap InfoEvent
  workers : List Worker
  closing : Option (List (String × Service))
  panicked : Bool
  trace : List Effect

/-- The state at program start: the variable initialisers of the package. -/
def State.init : State where
  jorum := []
  servicesErrorChs := []
  servicesWarnChs := []
  servicesCloseChs := []
  servicesInfoChs := []
  errorChs := []
  warnChs := []
  closeChs := []
  infoChs := []
  abortClosed := false
  nextChan := 0
  errQ := fun _ => []
  strQ := fun _ => []
  errorEventQ := fun _ => []
  infoEventQ := fun _ => []
  workers := []
  closing := none
  panicked := false
  trace := []

/-- The capability wiring record of a category. -/
def State.wired (s : State) : Kind → List (String × Nat)
  | .error => s.servicesErrorChs
  | .warn => s.servicesWarnChs
  | .close => s.servicesCloseChs
  | .info => s.servicesInfoChs

/-- The subscriber list of a category. -/
def State.subs (s : State) : Kind → List Nat
  | .error => s.errorChs
  | .warn => s.warnChs
  | .close => s.closeChs
  | .info => s.infoChs

/-! ## The broadcast layer -/

/-- `OnError`: `errorChs = append(errorChs, ch)`. -/
def OnError (ch : Nat) (s : State) : State :=
  { s with errorChs := s.errorChs ++ [ch] }

/-- `emitError`: send `ev` on every channel of `errorChs`, in order. -/
def emitError (ev : ErrorEvent) (s : State) : State :=
  let r := sendAll Effect.errorSend s.errorChs ev
    (s.errorEventQ, s.trace ++ [Effect.errorEmitted .error ev])
  { s with errorEventQ := r.1, trace := r.2 }

/-- `OnWarn`: `warnChs = append(warnChs, ch)`. -/
def OnWarn (ch : Nat) (s : State) : State :=
  { s with warnChs := s.warnChs ++ [ch] }

/-- `emitWarn`: send `ev` on every channel of `warnChs`, in order. -/
def emitWarn (ev : ErrorEvent) (s : State) : State :=
  let r := sendAll Effect.errorSend s.warnChs ev
    (s.errorEventQ, s.trace ++ [Effect.errorEmitted .warn ev])
  { s with errorEventQ := r.1, trace := r.2 }

/-- `OnClose`: `closeChs = append(closeChs, ch)`. -/
def OnClose (ch : Nat) (s : State) : State :=
  { s with closeChs := s.closeChs ++ [ch] }

/-- `emitClose`: send `ev` on every channel of `closeChs`, in order. -/
def emitClose (ev : ErrorEvent) (s : State) : State :=
  let r := sendAll Effect.errorSend s.closeChs ev
    (s.errorEventQ, s.trace ++ [Effect.errorEmitted .close ev])
  { s with errorEventQ := r.1, trace := r.2 }

/-- `OnInfo`: `infoChs = append(infoChs, ch)`. -/
def OnInfo (ch : Nat) (s : State) : State :=
  { s with infoChs := s.infoChs ++ [ch] }

/-- `emitInfo`: send `ev` on every channel of `infoChs`, in order. -/
def emitInfo (ev : InfoEvent) (s : State) : State :=
  let r := sendAll Effect.infoSend s.infoChs ev
    (s.infoEventQ, s.trace ++ [Effect.infoEmitted ev])
  { s with infoEventQ := r.1, trace := r.2 }

/-! ## The registry store -/

/-- `Get`: the value and the error it returns. -/
def Get (name : String) (s : State) : Service × GoError :=
  let value : Service := (mapGet s.jorum name).getD none
  if value = none then
    (none, some (Err.errorString (name ++ " not found in the jorum")))
  else
    (value, none)

/-- `GetNoErr`: the value of `Get`, the error dropped. -/
def GetNoErr (name : String) (s : State) : Service :=
  (Get name s).1

/-- One of the four wiring blocks of `Register`, for the category `k`: when the
service asserts to the capability interface, make a channel, hand it to the
service's setter and record it under `name`. -/
def wire (k : Kind) (name : String) (service : Service) (s : State) : State :=
  if implements k service then
    let ch := s.nextChan
    let s := { s with nextChan := ch + 1, trace := s.trace ++ [Effect.setter k name ch] }
    match k with
    | .error => { s with errQ := s.errQ.set ch [],
                         servicesErrorChs := mapSet s.servicesErrorChs name ch }
    | .warn => { s with errQ := s.errQ.set ch [],
                        servicesWarnChs := mapSet s.servicesWarnChs name ch }
    | .close => { s with errQ := s.errQ.set ch [],
                         servicesCloseChs := mapSet s.servicesCloseChs name ch }
    | .info => { s with strQ := s.strQ.set ch [],
                        servicesInfoChs := mapSet s.servicesInfoChs name ch }
  else s

/-- `Register`: the state afterwards and the error it returns. -/
def Register (name : String) (service : Service) (s : State) : State × GoError :=
  if (mapGet s.jorum name).isSome then
    (s, some (Err.errorString ("there is already an service named " ++ name ++ " in the jorum")))
  else
    let s := { s with jorum := mapSet s.jorum name service }
    let s := wire .error name service s
    let s := wire .warn name service s
    let s := wire .close name service s
    let s := wire .info name service s
    (s, none)

/-! ## The shutdown coordinator -/

/-- The message of the info event emitted before a service is closed. -/
def tryingMsg (name : String) : String :=
  "jorum is trying to close an service named " ++ name

/-- The message of the info event emitted after a service was closed. -/
def closedMsg (name : String) : String :=
  "jorum successfully closed an service named " ++ name

/-- The error `Close` returns when the `Close()` of the service `name` fails
with `err`: `fmt.Errorf("failed to call Close on jorum service named %s: %w", name, err)`. -/
def closeFailure (name : String) (err : Err) : Err :=
  .wrapError ("failed to call Close on jorum service named " ++ name ++ ": " ++ err.Error) err

/-- One iteration of the loop of `Close`, for the entry `name`, `service`: the
state afterwards and, when the iteration returns from `Close`, the error
returned. -/
def closeBody (name : String) (service : Service) (s : State) : State × GoError :=
  match asCloser service with
  | none => (s, none)
  | some result =>
    let s := emitInfo ⟨name, tryingMsg name⟩ s
    let s := { s with trace := s.trace ++ [Effect.closeCall name] }
    match result with
    | some err => (s, some (closeFailure name err))
    | none => (emitInfo ⟨name, closedMsg name⟩ s, none)

/-- The loop `for name, service := range jorum` of `Close`, visiting the entries
in the given order: the state afterwards and the error returned. -/
def closeLoop : List (String × Service) → State → State × GoError
  | [], s => (s, none)
  | (name, service) :: rest, s =>
    match closeBody name service s with
    | (s, some err) => (s, some err)
    | (s, none) => closeLoop rest s

/-- How a call ends: it returns an error value, or it panics. -/
inductive Outcome where
  | returned (err : GoError)
  | panicked
  deriving DecidableEq, Repr

/-- `Close`, with the order in which `range jorum` visits the entries.
`close(abortCh)` panics when the channel is already closed. -/
def Close (order : List (String × Service)) (s : State) : State × Outcome :=
  if s.abortClosed then
    ({ s with panicked := true }, .panicked)
  else
    let r := closeLoop order { s with abortClosed := true }
    (r.1, .returned r.2)

/-! ## The dispatch loops -/

/-- The goroutines that one loop of `Ready` starts, one for each entry of the
wiring record of the category. -/
def spawn (k : Kind) (m : List (String × Nat)) : List Worker :=
  m.map (fun p => { kind := k, name := p.1, ch := p.2, running := true })

/-- `Ready`: start one goroutine for every entry of every wiring record. -/
def Ready (s : State) : State :=
  { s with workers := s.workers ++ spawn .error s.servicesErrorChs
      ++ spawn .warn s.servicesWarnChs ++ spawn .close s.servicesCloseChs
      ++ spawn .info s.servicesInfoChs }

/-- The case `ev := <-ch` of the select of a dispatch loop: take the first
value of the channel, wrap it with the name into an event and emit it.  The
case is not ready when the channel is empty. -/
def recvCase (w : Worker) (s : State) : Option State :=
  match w.kind with
  | .error =>
    match s.errQ w.ch with
    | [] => none
    | ev :: rest => some (emitError ⟨w.name, ev⟩ { s with errQ := s.errQ.set w.ch rest })
  | .warn =>
    match s.errQ w.ch with
    | [] => none
    | ev :: rest => some (emitWarn ⟨w.name, ev⟩ { s with errQ := s.errQ.set w.ch rest })
  | .close =>
    match s.errQ w.ch with
    | [] => none
    | ev :: rest => some (emitClose ⟨w.name, ev⟩ { s with errQ := s.errQ.set w.ch rest })
  | .info =>
    match s.strQ w.ch with
    | [] => none
    | ev :: rest => some (emitInfo ⟨w.name, ev⟩ { s with strQ := s.strQ.set w.ch rest })

/-- Mark the goroutine `i` as returned. -/
def stopWorker : List Worker → Nat → List Worker
  | [], _ => []
  | w :: ws, 0 => { w with running := false } :: ws
  | w :: ws, i + 1 => w :: stopWorker ws i

/-! ## The system -/

/-- The capacity of the channels made by `Register`. -/
def wiredCap : Nat := 100

/-- The steps of the system.

* `register`, `onError`, `onWarn`, `onClose`, `onInfo`, `ready`: a call of the
  function of that name.
* `closeCall order`: `Close` is called and runs `close(abortCh)`; `order` is
  the order in which its loop will visit the entries of `jorum`.
* `closeIter`: the next iteration of the loop of the `Close` call in progress,
  or its return when no entry is left.
* `pushErr k name e`: the service `name` sends `e` on the channel it was handed
  for the category `k`; `pushInfo name m`: it sends `m` on its info channel.
* `recv i`: the select of goroutine `i` takes the case `ev := <-ch`.
* `abort i`: the select of goroutine `i` takes the case `<-abortCh`. -/
inductive Action where
  | register (name : String) (service : Service)
  | onError (ch : Nat)
  | onWarn (ch : Nat)
  | onClose (ch : Nat)
  | onInfo (ch : Nat)
  | ready
  | closeCall (order : List (String × Service))
  | closeIter
  | pushErr (k : Kind) (name : String) (e : GoError)
  | pushInfo (name : String) (m : String)
  | recv (i : Nat)
  | abort (i : Nat)
  deriving DecidableEq, Repr

/-- A send by a service on a channel of type `chan error` it was handed; the
send blocks while the channel is full. -/
def pushErr (k : Kind) (name : String) (e : GoError) (s : State) : Option State :=
  if k = .info then none
  else
    match mapGet (s.wired k) name with
    | none => none
    | some ch =>
      if (s.errQ ch).length < wiredCap then
        some { s with errQ := s.errQ.send ch e }
      else none

/-- A send by a service on the `chan string` it was handed; the send blocks
while the channel is full. -/
def pushInfo (name : String) (m : String) (s : State) : Option State :=
  match mapGet s.servicesInfoChs name with
  | none => none
  | some ch =>
    if (s.strQ ch).length < wiredCap then
      some { s with strQ := s.strQ.send ch m }
    else none

/-- One step of the system; `none` when the step cannot be taken in `s`.  A
process that has panicked takes no step. -/
def step (a : Action) (s : State) : Option State :=
  if s.panicked then none
  else
    match a with
    | .register name service => some (Register name service s).1
    | .onError ch => some (OnError ch s)
    | .onWarn ch => some (OnWarn ch s)
    | .onClose ch => some (OnClose ch s)
    | .onInfo ch => some (OnInfo ch s)
    | .ready => some (Ready s)
    | .closeCall order =>
      if order.Perm s.jorum then
        if s.abortClosed then some { s with panicked := true }
        else some { s with abortClosed := true, closing := some order }
      else none
    | .closeIter =>
      match s.closing with
      | none => none
      | some [] => some { s with closing := none }
      | some ((name, service) :: rest) =>
        match closeBody name service s with
        | (s, some _) => some { s with closing := none }
        | (s, none) => some { s with closing := some rest }
    | .pushErr k name e => pushErr k name e s
    | .pushInfo name m => pushInfo name m s
    | .recv i =>
      match s.workers[i]? with
      | none => none
      | some w => if w.running then recvCase w s else none
    | .abort i =>
      match s.workers[i]? with
      | none => none
      | some w =>
        if w.running && s.abortClosed then some { s with workers := stopWorker s.workers i }
        else none

/-- Run a sequence of steps; `none` when one of them cannot be taken. -/
def exec : List Action → State → Option State
  | [], s => some s
  | a :: as, s =>
    match step a s with
    | none => none
    | some s => exec as s

/-! ## Vocabulary of the properties -/

/-- The names of the closeable entries of `L`, in the order of `L`. -/
def closeables (L : List (String × Service)) : List String :=
  (L.filter (fun p => (asCloser p.2).isSome)).map (fun p => p.1)

/-- What the emission of the info event `ev` is with the subscriber list
`subs`: the entry into `emitInfo`, then one send of `ev` on each entry of
`subs`, from the first to the last. -/
def announce (subs : List Nat) (ev : InfoEvent) : List Effect :=
  Effect.infoEmitted ev :: subs.map (fun ch => Effect.infoSend ch ev)

/-- What a fail-fast shutdown does for a service whose close succeeds, with the
info subscriber list `subs`: announce the attempt, call its `Close()`, announce
the success. -/
def closedSteps (subs : List Nat) (name : String) : List Effect :=
  announce subs ⟨name, tryingMsg name⟩ ++ [Effect.closeCall name]
    ++ announce subs ⟨name, closedMsg name⟩

/-- What a fail-fast shutdown does for the service whose close fails, with the
info subscriber list `subs`: announce the attempt and call its `Close()`. -/
def failedSteps (subs : List Nat) (name : String) : List Effect :=
  announce subs ⟨name, tryingMsg name⟩ ++ [Effect.closeCall name]

/-- The two info events around a successful close of `name`. -/
def closedEvents (name : String) : List InfoEvent :=
  [⟨name, tryingMsg name⟩, ⟨name, closedMsg name⟩]

/-- The state `s` after the effects `tr` have happened and each of the info
events `evs`, in order, has been sent to every entry of the info subscriber
list. -/
def State.after (s : State) (tr : List Effect) (evs : List InfoEvent) : State :=
  { s with trace := s.trace ++ tr,
           infoEventQ := fun c =>
             s.infoEventQ c ++ evs.flatMap (fun ev => List.replicate (s.infoChs.count c) ev) }

/-- The state `s` after the abort signal was closed, the effects `tr` have
happened and the info events `evs` were sent to every info subscriber. -/
def State.afterClose (s : State) (tr : List Effect) (evs : List InfoEvent) : State :=
  State.after { s with abortClosed := true } tr evs

/-- The states the program can be in: the initial state, and every state
reached by a step of the system or by a `Close` call that runs to its end. -/
inductive Reachable : State → Prop where
  | init : Reachable State.init
  | step (a : Action) (s s' : State) : Reachable s → step a s = some s' → Reachable s'
  | close (order : List (String × Service)) (s : State) :
      Reachable s → order.Perm s.jorum → Reachable (Close order s).1

/-- Every key of a wiring record is a key of the registry. -/
def WiredRegistered (s : State) : Prop :=
  ∀ k name, mapGet s.jorum name = none → mapGet (s.wired k) name = none

/-- The goroutine `i` has returned from its loop. -/
def Stopped (i : Nat) (s : State) : Prop :=
  ∃ w, s.workers[i]? = some w ∧ w.running = false

/-- The abort steps of the workers `ws` that are still in their loop, `i`
being the index of the first of them. -/
def abortRunning : List Worker → Nat → List Action
  | [], _ => []
  | w :: ws, i =>
    if w.running then Action.abort i :: abortRunning ws (i + 1) else abortRunning ws (i + 1)

/-- A state in which the abort signal is closed, every worker has returned and
no `Close` is in progress. -/
def Quiet (s : State) : Prop :=
  s.abortClosed = true ∧ (∀ w ∈ s.workers, w.running = false) ∧ s.closing = none

/-- The steps taken while the program sets itself up, before `Ready`: the
registrations, the subscriptions, and the sends of the services on the channels
they were handed. -/
def Action.isSetup : Action → Bool
  | Action.register _ _ => true
  | Action.onError _ => true
  | Action.onWarn _ => true
  | Action.onClose _ => true
  | Action.onInfo _ => true
  | Action.pushErr _ _ _ => true
  | Action.pushInfo _ _ => true
  | _ => false

/-- The steps of the running system as long as `Close` is not called: the
sends of the services and the steps of the dispatch workers. -/
def Action.isRun : Action → Bool
  | Action.pushErr _ _ _ => true
  | Action.pushInfo _ _ => true
  | Action.recv _ => true
  | Action.abort _ => true
  | _ => false

/-- The value that the step sends for the service `name` in the category `k`,
when it is such a send. -/
def Action.errSent (k : Kind) (name : String) : Action → Option GoError
  | Action.pushErr k' n e => if k' = k ∧ n = name then some e else none
  | _ => none

/-- The message that the step sends for the service `name` on its info channel,
when it is such a send. -/
def Action.infoSent (name : String) : Action → Option String
  | Action.pushInfo n m => if n = name then some m else none
  | _ => none

/-- The values that the service `name` sends in the category `k` in the steps
`acts`, in order. -/
def sentErr (k : Kind) (name : String) (acts : List Action) : List GoError :=
  acts.filterMap (Action.errSent k name)

/-- The messages that the service `name` sends on its info channel in the steps
`acts`, in order. -/
def sentInfo (name : String) (acts : List Action) : List String :=
  acts.filterMap (Action.infoSent name)

/-- What holds of every state of the setup: nothing has been dispatched yet and
the wired channels are pairwise distinct. -/
structure SetupInv (s : State) : Prop where
  workers : s.workers = []
  abortOpen : s.abortClosed = false
  alive : s.panicked = false
  errorEventQ : ∀ q, s.errorEventQ q = []
  infoEventQ : ∀ q, s.infoEventQ q = []
  bound : ∀ k n c, mapGet (s.wired k) n = some c → c < s.nextChan
  inj : ∀ k k' n n' c, mapGet (s.wired k) n = some c → mapGet (s.wired k') n' = some c →
    k = k' ∧ n = n'
  entries : ∀ k n c, (n, c) ∈ s.wired k → mapGet (s.wired k) n = some c

/-- What holds of every state of the running system, started by `Ready` in the
state `s0`, as long as `Close` is not called. -/
structure RunInv (s0 s : State) : Prop where
  abortOpen : s.abortClosed = false
  alive : s.panicked = false
  wired : ∀ k, s.wired k = s0.wired k
  subs : ∀ k, s.subs k = s0.subs k
  workers : s.workers = (Ready s0).workers

/-- For a service `name` whose channel for an error-typed category is `c`, a
subscriber channel `q` and a sequence `sent` of values: the events on `q` that
carry the name, followed by the values still in `c` wrapped with the name, are
the values `sent` wrapped with the name, in the same order. -/
def Delivered (name : String) (c q : Nat) (sent : List GoError) (s : State) : Prop :=
  (s.errorEventQ q).filter (fun ev => decide (ev.Name = name))
      ++ (s.errQ c).map (fun e => (⟨name, e⟩ : ErrorEvent))
    = sent.map (fun e => (⟨name, e⟩ : ErrorEvent))

/-- The same for the info category: `c` is the `chan string` of the service
and `q` a `chan InfoEvent`. -/
def DeliveredInfo (name : String) (c q : Nat) (sent : List String) (s : State) : Prop :=
  (s.infoEventQ q).filter (fun ev => decide (ev.Name = name))
      ++ (s.strQ c).map (fun m => (⟨name, m⟩ : InfoEvent))
    = sent.map (fun m => (⟨name, m⟩ : InfoEvent))

/-! ## Concrete services, states and runs -/

/-- A closeable service that also emits info events; its close succeeds. -/
def svcA : ServiceVal :=
  ⟨1, false, false, false, true, some none⟩

/-- A closeable service whose close fails with the error `X`. -/
def svcB : ServiceVal :=
  ⟨2, false, false, false, false, some (some (Err.errorString "X"))⟩

/-- A service with the error, close and info capabilities that is not
closeable. -/
def svcC : ServiceVal :=
  ⟨3, true, false, true, true, none⟩

/-- A service with the error capability only. -/
def svcE : ServiceVal :=
  ⟨4, true, false, false, false, none⟩

/-- A state in which one `chan ErrorEvent` is subscribed to two categories:
`OnError(ch); OnWarn(ch)` with the channel 0. -/
def sharedSubscriber : State :=
  OnWarn 0 (OnError 0 State.init)

/-- A state in which one channel is subscribed twice to the same category:
`OnError(ch); OnError(ch)` with the channel 0. -/
def doubleSubscriber : State :=
  OnError 0 (OnError 0 State.init)

/-- The state after `OnInfo(ch)` with the channel 7, `Register("a", svcA)` and
`Register("b", svcB)`. -/
def shutdownState : State :=
  (Register "b" (some svcB) (Register "a" (some svcA) (OnInfo 7 State.init)).1).1

/-- The state after `OnInfo(ch)` with the channel 7. -/
def oneInfoSubscriber : State :=
  OnInfo 7 State.init

/-- The state after `OnInfo(ch)` with the channel 7 and `Register("a", svcA)`:
the only service is closeable and its close succeeds. -/
def oneCloser : State :=
  (Register "a" (some svcA) oneInfoSubscriber).1

/-- The state after a first `Close()` in `oneCloser`. -/
def closedOnce : State :=
  (Close [("a", some svcA)] oneCloser).1

/-- A run: a subscriber on the error category, the service "A" registered,
`Ready`, one error pushed by "A", then `Close` called, which closes the abort
signal. -/
def pendingAtAbort : List Action :=
  [Action.onError 0, Action.register "A" (some svcE), Action.ready,
   Action.pushErr Kind.error "A" (some (Err.errorString "e1")),
   Action.closeCall [("A", some svcE)]]

/-- A run: a subscriber on the info category, the closeable service "a"
registered, then `Close` called, which closes the abort signal. -/
def closingAfterAbort : List Action :=
  [Action.onInfo 7, Action.register "a" (some svcA), Action.closeCall [("a", some svcA)]]

/-- The state reached by the run `pendingAtAbort`: the abort signal is closed
and the error "e1" is pending in the wired queue of "A". -/
def abortedState : State :=
  (exec pendingAtAbort State.init).getD State.init

/-- The run `pendingAtAbort` continued until all is quiet: the worker of "A"
takes the abort case and `Close` finishes its loop and returns.  The error "e1"
is still pending in the wired queue of "A". -/
def quietRun : List Action :=
  pendingAtAbort ++ [Action.abort 0, Action.closeIter, Action.closeIter]

/-- The state reached by the run `quietRun`. -/
def quietState : State :=
  (exec quietRun State.init).getD State.init

/-- A run in which the channel 5 is subscribed twice to the error category:
"A" is registered, `Ready` is called, "A" pushes the error "e1" and its worker
takes the receive case. -/
def twiceSubscribed : List Action :=
  [Action.onError 5, Action.onError 5, Action.register "A" (some svcE), Action.ready,
   Action.pushErr Kind.error "A" (some (Err.errorString "e1")), Action.recv 0]

/-- A run in which `Close` is called while an error is pending: the channel 5
is subscribed once, "A" is registered, `Ready` is called, "A" pushes the error
"e1", `Close` closes the abort signal and the worker takes the abort case. -/
def closedWhilePending : List Action :=
  [Action.onError 5, Action.register "A" (some svcE), Action.ready,
   Action.pushErr Kind.error "A" (some (Err.errorString "e1")),
   Action.closeCall [("A", some svcE)], Action.abort 0]

/-- A service with the error and the warn capability. -/
def svcEW : ServiceVal :=
  ⟨5, true, true, false, false, none⟩

/-- A run in which the channel 5 is subscribed through `OnError` and through
`OnWarn`: "A" is registered, `Ready` is called, "A" pushes the warning "w1" and
its warn worker takes the receive case. -/
def alsoWarnSubscribed : List Action :=
  [Action.onError 5, Action.onWarn 5, Action.register "A" (some svcEW), Action.ready,
   Action.pushErr Kind.warn "A" (some (Err.errorString "w1")), Action.recv 1]

/-- A run in which the channel 5 is subscribed through `OnError` only after the
error "e1" of "A" was dispatched. -/
def lateSubscribed : List Action :=
  [Action.register "A" (some svcE), Action.ready,
   Action.pushErr Kind.error "A" (some (Err.errorString "e1")), Action.recv 0,
   Action.onError 5]

/-- A setup: the channel 5 subscribed to the error category, "A" registered,
and a first error pushed by "A" before `Ready`. -/
def fifoSetup : List Action :=
  [Action.onError 5, Action.register "A" (some svcE),
   Action.pushErr Kind.error "A" (some (Err.errorString "e0"))]

/-- A run after `Ready`: "A" pushes "e1", its worker takes the receive case
once, "A" pushes "e2". -/
def fifoRun : List Action :=
  [Action.pushErr Kind.error "A" (some (Err.errorString "e1")), Action.recv 0,
   Action.pushErr Kind.error "A" (some (Err.errorString "e2"))]

/-- The state at the end of `fifoSetup`. -/
def fifoReadyState : State :=
  (exec fifoSetup State.init).getD State.init

/-- The state at the end of `fifoRun`, started by `Ready` in `fifoReadyState`. -/
def fifoState : State :=
  (exec fifoRun (Ready fifoReadyState)).getD State.init

/-! ## Maps and channel heaps -/

theorem mapGet_mapErase_self {V : Type} (m : List (String × V)) (name : String) :
    mapGet (mapErase m name) name = none := by
  induction m with
  | nil => rfl
  | cons p m ih =>
    obtain ⟨k, v⟩ := p
    by_cases h : k = name <;> simp [mapErase, mapGet, h, ih]

theorem mapGet_mapErase_ne {V : Type} (m : List (String × V)) (name other : String)
    (h : other ≠ name) : mapGet (mapErase m name) other = mapGet m other := by
  induction m with
  | nil => rfl
  | cons p m ih =>
    obtain ⟨k, v⟩ := p
    by_cases hk : k = name
    · have hko : ¬ k = other := fun e => h (e ▸ hk)
      rw [mapErase, if_pos hk, ih, mapGet, if_neg hko]
    · rw [mapErase, if_neg hk, mapGet, mapGet, ih]

theorem mapGet_mapSet_self {V : Type} (m : List (String × V)) (name : String) (v : V) :
    mapGet (mapSet m name v) name = some v := by
  simp [mapSet, mapGet]

theorem mapGet_mapSet_ne {V : Type} (m : List (String × V)) (name other : String) (v : V)
    (h : other ≠ name) : mapGet (mapSet m name v) other = mapGet m other := by
  have h2 : name ≠ other := fun e => h e.symm
  simp [mapSet, mapGet, h2, mapGet_mapErase_ne m name other h]

theorem mem_of_mapGet {V : Type} (m : List (String × V)) (name : String) (v : V)
    (h : mapGet m name = some v) : (name, v) ∈ m := by
  induction m with
  | nil => simp [mapGet] at h
  | cons p m ih =>
    obtain ⟨k, w⟩ := p
    by_cases hk : k = name
    · simp [mapGet, hk] at h
      simp [hk, h]
    · simp [mapGet, hk] at h
      exact List.mem_cons_of_mem _ (ih h)

theorem sendAll_apply {α : Type} (sent : Nat → α → Effect) (chs : List Nat) (ev : α)
    (r : Heap α × List Effect) (c : Nat) :
    (sendAll sent chs ev r).1 c = r.1 c ++ List.replicate (chs.count c) ev := by
  induction chs generalizing r with
  | nil => simp [sendAll]
  | cons ch chs ih =>
    rw [sendAll, ih]
    by_cases h : c = ch
    · subst h
      simp [Heap.send, Heap.set, List.replicate_succ]
    · have h2 : ¬ ch = c := fun e => h e.symm
      simp [Heap.send, Heap.set, h, List.count_cons, h2]

theorem sendAll_trace {α : Type} (sent : Nat → α → Effect) (chs : List Nat) (ev : α)
    (r : Heap α × List Effect) :
    (sendAll sent chs ev r).2 = r.2 ++ chs.map (fun ch => sent ch ev) := by
  induction chs generalizing r with
  | nil => simp [sendAll]
  | cons ch chs ih =>
    rw [sendAll, ih]
    simp

/-! ## Registration and lookup -/

theorem wire_jorum (k : Kind) (name : String) (service : Service) (s : State) :
    (wire k name service s).jorum = s.jorum := by
  unfold wire
  split
  · cases k <;> rfl
  · rfl

theorem Register_jorum (name : String) (service : Service) (s : State)
    (h : mapGet s.jorum name = none) :
    (Register name service s).1.jorum = mapSet s.jorum name service := by
  simp [Register, h, wire_jorum]

theorem Register_error (name : String) (service : Service) (s : State)
    (h : mapGet s.jorum name = none) : (Register name service s).2 = none := by
  simp [Register, h]

/-- C1, as stated, fails for the nil service: `Register("a", nil)` on the
initial state succeeds, and the following `Get("a")` returns nil and the
not-found error. -/
theorem C1_nil_service_not_returned :
    mapGet State.init.jorum "a" = none ∧
    (Register "a" none State.init).2 = none ∧
    Get "a" (Register "a" none State.init).1
      = (none, some (Err.errorString "a not found in the jorum")) := by
  refine ⟨rfl, rfl, ?_⟩
  decide

/-- C1, amended: for every state, every name that is not registered and every
non-nil service value, `Register(name, service)` succeeds and a following
`Get(name)` returns that same service value with no error. -/
theorem C1_register_then_get (s : State) (name : String) (v : ServiceVal)
    (h : mapGet s.jorum name = none) :
    (Register name (some v) s).2 = none ∧
    Get name (Register name (some v) s).1 = (some v, none) := by
  refine ⟨Register_error name _ s h, ?_⟩
  simp [Get, Register_jorum name _ s h, mapGet_mapSet_self]

theorem C1_register_then_get_witness :
    mapGet State.init.jorum "db" = none ∧
    (Register "db" (some ⟨1, true, false, false, true, none⟩) State.init).2 = none ∧
    Get "db" (Register "db" (some ⟨1, true, false, false, true, none⟩) State.init).1
      = (some ⟨1, true, false, false, true, none⟩, none) :=
  ⟨rfl, C1_register_then_get State.init "db" ⟨1, true, false, false, true, none⟩ rfl⟩

/-- C2: when `name` is already registered, `Register(name, service)` returns
the duplicate-name error and the state afterwards is the state before: the
registry, the four wiring records, the four subscriber lists and the trace of
setter calls are the same, and `Get(name)` still returns the value that was
registered. -/
theorem C2_duplicate_register_rejected (s : State) (name : String) (service : Service)
    (h : (mapGet s.jorum name).isSome = true) :
    (Register name service s).2
      = some (Err.errorString ("there is already an service named " ++ name ++ " in the jorum")) ∧
    (Register name service s).1 = s ∧
    (Register name service s).1.jorum = s.jorum ∧
    (∀ k, (Register name service s).1.wired k = s.wired k) ∧
    (∀ k, (Register name service s).1.subs k = s.subs k) ∧
    (Register name service s).1.trace = s.trace ∧
    (∀ original, mapGet s.jorum name = some original →
      (Get name (Register name service s).1).1 = original) := by
  have hs : (Register name service s).1 = s := by simp [Register, h]
  refine ⟨by simp [Register, h], hs, by rw [hs], fun k => by rw [hs], fun k => by rw [hs],
    by rw [hs], ?_⟩
  intro original ho
  rw [hs]
  cases original with
  | none => simp [Get, ho]
  | some v => simp [Get, ho]

theorem C2_duplicate_register_rejected_witness :
    (Register "db" (some ⟨2, true, true, true, true, none⟩)
        (Register "db" (some ⟨1, false, false, false, false, none⟩) State.init).1).1
      = (Register "db" (some ⟨1, false, false, false, false, none⟩) State.init).1 :=
  (C2_duplicate_register_rejected
    (Register "db" (some ⟨1, false, false, false, false, none⟩) State.init).1 "db"
    (some ⟨2, true, true, true, true, none⟩) (by decide)).2.1

/-- C8: for every state and every name that is not a key of the registry,
`Get(name)` returns nil together with the not-found error and `GetNoErr(name)`
returns nil.  Both functions only read the registry: they are functions of the
state and yield no new state. -/
theorem C8_get_absent_name (s : State) (name : String) (h : mapGet s.jorum name = none) :
    Get name s = (none, some (Err.errorString (name ++ " not found in the jorum"))) ∧
    GetNoErr name s = none := by
  simp [GetNoErr, Get, h]

theorem C8_get_absent_name_witness :
    Get "cache" (Register "db" (some ⟨1, false, false, false, false, none⟩) State.init).1
      = (none, some (Err.errorString "cache not found in the jorum")) ∧
    GetNoErr "cache" (Register "db" (some ⟨1, false, false, false, false, none⟩) State.init).1
      = none :=
  C8_get_absent_name (Register "db" (some ⟨1, false, false, false, false, none⟩) State.init).1
    "cache" (by decide)

/-- C10: `Get(name)` succeeds exactly when `name` is registered with a non-nil
value, and then returns that value; a name registered with the nil value is
reported by `Get` as not found while `Register` rejects it as already in use. -/
theorem C10_get_succeeds_iff_non_nil (s : State) (name : String) :
    ((Get name s).2 = none ↔ ∃ v, mapGet s.jorum name = some (some v)) ∧
    (∀ v, mapGet s.jorum name = some (some v) → Get name s = (some v, none)) ∧
    (mapGet s.jorum name = some none →
      Get name s = (none, some (Err.errorString (name ++ " not found in the jorum"))) ∧
      ∀ service, (Register name service s).2
        = some (Err.errorString ("there is already an service named " ++ name ++ " in the jorum")) ∧
        (Register name service s).1 = s) := by
  refine ⟨?_, ?_, ?_⟩
  · cases h : mapGet s.jorum name with
    | none => simp [Get, h]
    | some service =>
      cases service with
      | none => simp [Get, h]
      | some v => simp [Get, h]
  · intro v h
    simp [Get, h]
  · intro h
    refine ⟨by simp [Get, h], fun service => ?_⟩
    simp [Register, h]

/-! ## The broadcast layer -/

/-- C4, as stated, fails when a channel is subscribed more than once.  After
`OnError(ch); OnWarn(ch)` the channel is a queue of the warn category, and
`emitError` puts the event on it; after `OnError(ch); OnError(ch)` one
`emitError` puts two copies of the event on the channel. -/
theorem C4_shared_queue_is_touched :
    sharedSubscriber.warnChs = [0] ∧
    sharedSubscriber.errorEventQ 0 = [] ∧
    (emitError ⟨"A", none⟩ sharedSubscriber).errorEventQ 0 = [⟨"A", none⟩] ∧
    doubleSubscriber.errorChs = [0, 0] ∧
    (emitError ⟨"A", none⟩ doubleSubscriber).errorEventQ 0 = [⟨"A", none⟩, ⟨"A", none⟩] := by
  refine ⟨rfl, rfl, ?_, rfl, ?_⟩ <;> decide

/-- C4, amended: with subscriber queues as sequences that never block,
`emit<Category>(event)` does one send of the event for each entry of that
category's subscriber list, visiting the entries from the first to the last,
that is in the order in which they were subscribed, so a channel receives one
copy for each of its occurrences in the list: exactly one when it occurs once,
none when it is not in the list.  It changes no subscriber list and no queue of
the other channel type.  `Subscribe<Category>(ch)` appends `ch` at the end of
that category's list, leaves the other three lists and every queue as they are;
and after two distinct fresh channels are subscribed to info, one `emitInfo`
sends the event once on each, on the first subscribed first. -/
theorem C4_emit_and_subscribe (s : State) (ev : ErrorEvent) (iev : InfoEvent) (ch : Nat) :
    ((emitError ev s).trace
        = s.trace ++ Effect.errorEmitted Kind.error ev :: s.errorChs.map (fun c => Effect.errorSend c ev) ∧
      (∀ c, (emitError ev s).errorEventQ c
        = s.errorEventQ c ++ List.replicate (s.errorChs.count c) ev) ∧
      (∀ c, s.errorChs.count c = 1 → (emitError ev s).errorEventQ c = s.errorEventQ c ++ [ev]) ∧
      (∀ c, c ∉ s.errorChs → (emitError ev s).errorEventQ c = s.errorEventQ c) ∧
      (emitError ev s).infoEventQ = s.infoEventQ ∧
      (∀ k, (emitError ev s).subs k = s.subs k)) ∧
    ((emitWarn ev s).trace
        = s.trace ++ Effect.errorEmitted Kind.warn ev :: s.warnChs.map (fun c => Effect.errorSend c ev) ∧
      (∀ c, (emitWarn ev s).errorEventQ c
        = s.errorEventQ c ++ List.replicate (s.warnChs.count c) ev) ∧
      (∀ c, s.warnChs.count c = 1 → (emitWarn ev s).errorEventQ c = s.errorEventQ c ++ [ev]) ∧
      (∀ c, c ∉ s.warnChs → (emitWarn ev s).errorEventQ c = s.errorEventQ c) ∧
      (emitWarn ev s).infoEventQ = s.infoEventQ ∧
      (∀ k, (emitWarn ev s).subs k = s.subs k)) ∧
    ((emitClose ev s).trace
        = s.trace ++ Effect.errorEmitted Kind.close ev :: s.closeChs.map (fun c => Effect.errorSend c ev) ∧
      (∀ c, (emitClose ev s).errorEventQ c
        = s.errorEventQ c ++ List.replicate (s.closeChs.count c) ev) ∧
      (∀ c, s.closeChs.count c = 1 → (emitClose ev s).errorEventQ c = s.errorEventQ c ++ [ev]) ∧
      (∀ c, c ∉ s.closeChs → (emitClose ev s).errorEventQ c = s.errorEventQ c) ∧
      (emitClose ev s).infoEventQ = s.infoEventQ ∧
      (∀ k, (emitClose ev s).subs k = s.subs k)) ∧
    ((emitInfo iev s).trace
        = s.trace ++ Effect.infoEmitted iev :: s.infoChs.map (fun c => Effect.infoSend c iev) ∧
      (∀ c, (emitInfo iev s).infoEventQ c
        = s.infoEventQ c ++ List.replicate (s.infoChs.count c) iev) ∧
      (∀ c, s.infoChs.count c = 1 → (emitInfo iev s).infoEventQ c = s.infoEventQ c ++ [iev]) ∧
      (∀ c, c ∉ s.infoChs → (emitInfo iev s).infoEventQ c = s.infoEventQ c) ∧
      (emitInfo iev s).errorEventQ = s.errorEventQ ∧
      (∀ k, (emitInfo iev s).subs k = s.subs k)) ∧
    ((OnError ch s).errorChs = s.errorChs ++ [ch] ∧ (OnError ch s).warnChs = s.warnChs ∧
      (OnError ch s).closeChs = s.closeChs ∧ (OnError ch s).infoChs = s.infoChs ∧
      (OnError ch s).errorEventQ = s.errorEventQ ∧ (OnError ch s).infoEventQ = s.infoEventQ) ∧
    ((OnWarn ch s).warnChs = s.warnChs ++ [ch] ∧ (OnWarn ch s).errorChs = s.errorChs ∧
      (OnWarn ch s).closeChs = s.closeChs ∧ (OnWarn ch s).infoChs = s.infoChs ∧
      (OnWarn ch s).errorEventQ = s.errorEventQ ∧ (OnWarn ch s).infoEventQ = s.infoEventQ) ∧
    ((OnClose ch s).closeChs = s.closeChs ++ [ch] ∧ (OnClose ch s).errorChs = s.errorChs ∧
      (OnClose ch s).warnChs = s.warnChs ∧ (OnClose ch s).infoChs = s.infoChs ∧
      (OnClose ch s).errorEventQ = s.errorEventQ ∧ (OnClose ch s).infoEventQ = s.infoEventQ) ∧
    ((OnInfo ch s).infoChs = s.infoChs ++ [ch] ∧ (OnInfo ch s).errorChs = s.errorChs ∧
      (OnInfo ch s).warnChs = s.warnChs ∧ (OnInfo ch s).closeChs = s.closeChs ∧
      (OnInfo ch s).errorEventQ = s.errorEventQ ∧ (OnInfo ch s).infoEventQ = s.infoEventQ) ∧
    (∀ a b, a ≠ b → a ∉ s.infoChs → b ∉ s.infoChs →
      (emitInfo iev (OnInfo b (OnInfo a s))).infoEventQ a = s.infoEventQ a ++ [iev] ∧
      (emitInfo iev (OnInfo b (OnInfo a s))).infoEventQ b = s.infoEventQ b ++ [iev] ∧
      (emitInfo iev (OnInfo b (OnInfo a s))).trace
        = s.trace ++ Effect.infoEmitted iev :: s.infoChs.map (fun c => Effect.infoSend c iev)
          ++ [Effect.infoSend a iev, Effect.infoSend b iev]) := by
  have one : ∀ {α : Type} (sent : Nat → α → Effect) (l : List Nat) (e : α)
      (r : Heap α × List Effect) (c : Nat),
      l.count c = 1 → (sendAll sent l e r).1 c = r.1 c ++ [e] := by
    intro α sent l e r c h
    rw [sendAll_apply, h]
    rfl
  have zero : ∀ {α : Type} (sent : Nat → α → Effect) (l : List Nat) (e : α)
      (r : Heap α × List Effect) (c : Nat),
      c ∉ l → (sendAll sent l e r).1 c = r.1 c := by
    intro α sent l e r c h
    rw [sendAll_apply, List.count_eq_zero_of_not_mem h]
    simp
  have tr : ∀ {α : Type} (sent : Nat → α → Effect) (l : List Nat) (e : α)
      (q : Heap α) (t : List Effect) (x : Effect),
      (sendAll sent l e (q, t ++ [x])).2 = t ++ x :: l.map (fun c => sent c e) := by
    intro α sent l e q t x
    rw [sendAll_trace]
    simp
  refine ⟨⟨tr _ _ _ _ _ _, fun c => sendAll_apply _ _ _ _ c, one _ _ _ _, zero _ _ _ _, rfl,
      fun k => by cases k <;> rfl⟩,
    ⟨tr _ _ _ _ _ _, fun c => sendAll_apply _ _ _ _ c, one _ _ _ _, zero _ _ _ _, rfl,
      fun k => by cases k <;> rfl⟩,
    ⟨tr _ _ _ _ _ _, fun c => sendAll_apply _ _ _ _ c, one _ _ _ _, zero _ _ _ _, rfl,
      fun k => by cases k <;> rfl⟩,
    ⟨tr _ _ _ _ _ _, fun c => sendAll_apply _ _ _ _ c, one _ _ _ _, zero _ _ _ _, rfl,
      fun k => by cases k <;> rfl⟩,
    ⟨rfl, rfl, rfl, rfl, rfl, rfl⟩, ⟨rfl, rfl, rfl, rfl, rfl, rfl⟩,
    ⟨rfl, rfl, rfl, rfl, rfl, rfl⟩, ⟨rfl, rfl, rfl, rfl, rfl, rfl⟩, ?_⟩
  intro a b hab ha hb
  have hba : ¬ b = a := fun e => hab e.symm
  refine ⟨?_, ?_, ?_⟩
  · apply one
    simp [OnInfo, List.count_append, List.count_cons, List.count_eq_zero_of_not_mem ha, hba]
  · apply one
    simp [OnInfo, List.count_append, List.count_cons, List.count_eq_zero_of_not_mem hb, hab]
  · simp only [emitInfo, OnInfo]
    rw [sendAll_trace]
    simp

/-! ## Shutdown -/

theorem emitInfo_after (s : State) (tr : List Effect) (evs : List InfoEvent) (ev : InfoEvent) :
    emitInfo ev (s.after tr evs) = s.after (tr ++ announce s.infoChs ev) (evs ++ [ev]) := by
  simp only [emitInfo, State.after, sendAll_trace, announce]
  congr 1
  · funext c
    simp [sendAll_apply, List.flatMap_append]
  · simp

theorem after_nil (s : State) : s.after [] [] = s := by
  simp [State.after]

theorem log_after (s : State) (tr t : List Effect) (evs : List InfoEvent) :
    ({ s.after tr evs with trace := (s.after tr evs).trace ++ t } : State)
      = s.after (tr ++ t) evs := by
  simp [State.after]

theorem closeBody_skipped (name : String) (service : Service) (s : State)
    (hc : asCloser service = none) : closeBody name service s = (s, none) := by
  simp [closeBody, hc]

theorem closeBody_closed (name : String) (service : Service) (s : State) (tr : List Effect)
    (evs : List InfoEvent) (hc : asCloser service = some none) :
    closeBody name service (s.after tr evs)
      = (s.after (tr ++ closedSteps s.infoChs name) (evs ++ closedEvents name), none) := by
  simp only [closeBody, hc, emitInfo_after, log_after]
  simp [closedSteps, closedEvents, List.append_assoc]

theorem closeBody_failed (name : String) (service : Service) (s : State) (tr : List Effect)
    (evs : List InfoEvent) (cause : Err) (hc : asCloser service = some (some cause)) :
    closeBody name service (s.after tr evs)
      = (s.after (tr ++ failedSteps s.infoChs name) (evs ++ [⟨name, tryingMsg name⟩]),
          some (closeFailure name cause)) := by
  simp only [closeBody, hc, emitInfo_after, log_after]
  simp [failedSteps, List.append_assoc]

theorem closeables_cons (name : String) (service : Service) (L : List (String × Service)) :
    closeables ((name, service) :: L)
      = if (asCloser service).isSome then name :: closeables L else closeables L := by
  simp only [closeables, List.filter_cons]
  split <;> rfl

theorem closeLoop_all_closed (L : List (String × Service)) (s : State) (tr : List Effect)
    (evs : List InfoEvent) (h : ∀ p ∈ L, ∀ e, asCloser p.2 ≠ some (some e)) :
    closeLoop L (s.after tr evs)
      = (s.after (tr ++ (closeables L).flatMap (closedSteps s.infoChs))
          (evs ++ (closeables L).flatMap closedEvents), none) := by
  induction L generalizing tr evs with
  | nil => simp [closeLoop, closeables]
  | cons p L ih =>
    obtain ⟨name, service⟩ := p
    have hL : ∀ p ∈ L, ∀ e, asCloser p.2 ≠ some (some e) :=
      fun p hp => h p (List.mem_cons_of_mem _ hp)
    have hp := h (name, service) (List.mem_cons_self _ _)
    rw [closeables_cons]
    cases hc : asCloser service with
    | none =>
      rw [closeLoop, closeBody_skipped name service _ hc]
      simp only [Option.isSome_none, Bool.false_eq_true, if_false]
      exact ih tr evs hL
    | some result =>
      cases result with
      | some e => exact absurd hc (hp e)
      | none =>
        rw [closeLoop, closeBody_closed name service s tr evs hc]
        simp only [Option.isSome_some, if_true]
        rw [ih _ _ hL]
        simp [List.flatMap_cons, List.append_assoc]

theorem closeLoop_first_failure (pre post : List (String × Service)) (name : String)
    (service : Service) (cause : Err) (s : State) (tr : List Effect) (evs : List InfoEvent)
    (h : ∀ p ∈ pre, ∀ e, asCloser p.2 ≠ some (some e))
    (hc : asCloser service = some (some cause)) :
    closeLoop (pre ++ (name, service) :: post) (s.after tr evs)
      = (s.after (tr ++ ((closeables pre).flatMap (closedSteps s.infoChs)
            ++ failedSteps s.infoChs name))
          (evs ++ ((closeables pre).flatMap closedEvents ++ [⟨name, tryingMsg name⟩])),
        some (closeFailure name cause)) := by
  induction pre generalizing tr evs with
  | nil =>
    simp only [List.nil_append, closeLoop, closeBody_failed name service s tr evs cause hc]
    simp [closeables]
  | cons p pre ih =>
    obtain ⟨n, v⟩ := p
    have hpre : ∀ p ∈ pre, ∀ e, asCloser p.2 ≠ some (some e) :=
      fun p hp => h p (List.mem_cons_of_mem _ hp)
    have hp := h (n, v) (List.mem_cons_self _ _)
    rw [closeables_cons]
    cases hv : asCloser v with
    | none =>
      rw [List.cons_append, closeLoop, closeBody_skipped n v _ hv]
      simp only [Option.isSome_none, Bool.false_eq_true, if_false]
      exact ih tr evs hpre
    | some result =>
      cases result with
      | some e => exact absurd hv (hp e)
      | none =>
        rw [List.cons_append, closeLoop, closeBody_closed n v s tr evs hv]
        simp only [Option.isSome_some, if_true]
        rw [ih _ _ hpre]
        simp [List.flatMap_cons, List.append_assoc]

theorem closeLoop_nil_iff (L : List (String × Service)) (s : State) :
    (closeLoop L s).2 = none ↔ ∀ p ∈ L, ∀ e, asCloser p.2 ≠ some (some e) := by
  induction L generalizing s with
  | nil => simp [closeLoop]
  | cons p L ih =>
    obtain ⟨name, service⟩ := p
    cases hc : asCloser service with
    | none => simp [closeLoop, closeBody, hc, ih]
    | some result =>
      cases result with
      | none => simp [closeLoop, closeBody, hc, ih]
      | some e => simp [closeLoop, closeBody, hc]

/-! ## Reachable states and channel wiring -/

theorem wire_wired_ne (k k' : Kind) (name : String) (service : Service) (s : State)
    (h : k' ≠ k) : (wire k name service s).wired k' = s.wired k' := by
  unfold wire
  split
  · cases k <;> cases k' <;> first | rfl | exact absurd rfl h
  · rfl

theorem wire_wired_self (k : Kind) (name : String) (service : Service) (s : State) :
    (wire k name service s).wired k
      = if implements k service then mapSet (s.wired k) name s.nextChan else s.wired k := by
  unfold wire
  split
  · cases k <;> rfl
  · rfl

theorem wire_trace (k : Kind) (name : String) (service : Service) (s : State) :
    (wire k name service s).trace
      = if implements k service then s.trace ++ [Effect.setter k name s.nextChan]
        else s.trace := by
  unfold wire
  split
  · cases k <;> rfl
  · rfl

theorem wire_nextChan (k : Kind) (name : String) (service : Service) (s : State) :
    (wire k name service s).nextChan
      = if implements k service then s.nextChan + 1 else s.nextChan := by
  unfold wire
  split
  · cases k <;> rfl
  · rfl

theorem wire_mapGet_ne (k k' : Kind) (name other : String) (service : Service) (s : State)
    (h : other ≠ name) :
    mapGet ((wire k name service s).wired k') other = mapGet (s.wired k') other := by
  by_cases hk : k' = k
  · subst hk
    rw [wire_wired_self]
    split
    · exact mapGet_mapSet_ne _ _ _ _ h
    · rfl
  · rw [wire_wired_ne k k' name service s hk]

theorem after_frame (s : State) (tr : List Effect) (evs : List InfoEvent) :
    (s.after tr evs).jorum = s.jorum ∧ (∀ k, (s.after tr evs).wired k = s.wired k) ∧
    (∀ k, (s.after tr evs).subs k = s.subs k) ∧ (s.after tr evs).workers = s.workers ∧
    (s.after tr evs).errQ = s.errQ ∧ (s.after tr evs).strQ = s.strQ ∧
    (s.after tr evs).errorEventQ = s.errorEventQ ∧
    (s.after tr evs).abortClosed = s.abortClosed ∧
    (s.after tr evs).panicked = s.panicked ∧ (s.after tr evs).nextChan = s.nextChan ∧
    (s.after tr evs).closing = s.closing :=
  ⟨rfl, fun k => by cases k <;> rfl, fun k => by cases k <;> rfl, rfl, rfl, rfl, rfl,
    rfl, rfl, rfl, rfl⟩

theorem after_after (s : State) (tr tr' : List Effect) (evs evs' : List InfoEvent) :
    (s.after tr evs).after tr' evs' = s.after (tr ++ tr') (evs ++ evs') := by
  simp only [State.after, List.append_assoc]
  congr 1
  funext c
  simp [List.flatMap_append]

theorem closeBody_after (name : String) (service : Service) (s : State) :
    ∃ tr evs, (closeBody name service s).1 = s.after tr evs := by
  cases hc : asCloser service with
  | none => exact ⟨[], [], by rw [closeBody_skipped name service s hc, after_nil]⟩
  | some result =>
    cases result with
    | some e =>
      have h := closeBody_failed name service s [] [] e hc
      rw [after_nil] at h
      exact ⟨_, _, by rw [h]⟩
    | none =>
      have h := closeBody_closed name service s [] [] hc
      rw [after_nil] at h
      exact ⟨_, _, by rw [h]⟩

theorem closeLoop_after (L : List (String × Service)) (s : State) :
    ∃ tr evs, (closeLoop L s).1 = s.after tr evs := by
  induction L generalizing s with
  | nil => exact ⟨[], [], by simp [closeLoop, after_nil]⟩
  | cons p L ih =>
    obtain ⟨name, service⟩ := p
    obtain ⟨tr, evs, hb⟩ := closeBody_after name service s
    cases hr : closeBody name service s with
    | mk s1 r =>
      rw [hr] at hb
      simp only at hb
      cases r with
      | some e => exact ⟨tr, evs, by simp [closeLoop, hr, hb]⟩
      | none =>
        obtain ⟨tr', evs', hl⟩ := ih s1
        refine ⟨tr ++ tr', evs ++ evs', ?_⟩
        simp only [closeLoop, hr]
        rw [hl, hb, after_after]

theorem Register_wired_ne (name other : String) (service : Service) (s : State) (k : Kind)
    (h : other ≠ name) :
    mapGet ((Register name service s).1.wired k) other = mapGet (s.wired k) other := by
  unfold Register
  split
  · rfl
  · simp only []
    rw [wire_mapGet_ne _ _ _ _ _ _ h, wire_mapGet_ne _ _ _ _ _ _ h,
      wire_mapGet_ne _ _ _ _ _ _ h, wire_mapGet_ne _ _ _ _ _ _ h]
    cases k <;> rfl

theorem Register_jorum_ne (name other : String) (service : Service) (s : State)
    (h : other ≠ name) :
    mapGet (Register name service s).1.jorum other = mapGet s.jorum other := by
  unfold Register
  split
  · rfl
  · simp only [wire_jorum]
    exact mapGet_mapSet_ne _ _ _ _ h

theorem Register_jorum_self (name : String) (service : Service) (s : State) :
    (mapGet (Register name service s).1.jorum name).isSome = true := by
  unfold Register
  split
  · assumption
  · simp only [wire_jorum]
    rw [mapGet_mapSet_self]
    rfl

theorem WiredRegistered_Register (name : String) (service : Service) (s : State)
    (h : WiredRegistered s) : WiredRegistered (Register name service s).1 := by
  intro k other ho
  by_cases hn : other = name
  · subst hn
    have := Register_jorum_self other service s
    rw [ho] at this
    cases this
  · rw [Register_wired_ne _ _ _ _ _ hn]
    rw [Register_jorum_ne _ _ _ _ hn] at ho
    exact h k other ho

theorem recvCase_after (w : Worker) (s s' : State) (h : recvCase w s = some s') :
    s'.jorum = s.jorum ∧ (∀ k, s'.wired k = s.wired k) ∧ (∀ k, s'.subs k = s.subs k) ∧
    s'.workers = s.workers ∧ s'.abortClosed = s.abortClosed ∧ s'.panicked = s.panicked ∧
    s'.closing = s.closing ∧ s'.nextChan = s.nextChan := by
  unfold recvCase at h
  split at h <;> split at h <;> cases h <;>
    exact ⟨rfl, fun k => by cases k <;> rfl, fun k => by cases k <;> rfl, rfl, rfl, rfl,
      rfl, rfl⟩

theorem step_frame (a : Action) (s s' : State) (h : step a s = some s')
    (ha : ∀ name service, a ≠ Action.register name service) :
    s'.jorum = s.jorum ∧ (∀ k, s'.wired k = s.wired k) ∧ s'.nextChan = s.nextChan := by
  unfold step at h
  split at h
  · cases h
  · cases a with
    | register name service => exact absurd rfl (ha name service)
    | onError ch => cases h; exact ⟨rfl, fun k => by cases k <;> rfl, rfl⟩
    | onWarn ch => cases h; exact ⟨rfl, fun k => by cases k <;> rfl, rfl⟩
    | onClose ch => cases h; exact ⟨rfl, fun k => by cases k <;> rfl, rfl⟩
    | onInfo ch => cases h; exact ⟨rfl, fun k => by cases k <;> rfl, rfl⟩
    | ready => cases h; exact ⟨rfl, fun k => by cases k <;> rfl, rfl⟩
    | closeCall order =>
      simp only at h
      split at h
      · split at h <;> (cases h; exact ⟨rfl, fun k => by cases k <;> rfl, rfl⟩)
      · cases h
    | closeIter =>
      simp only at h
      split at h
      · cases h
      · cases h; exact ⟨rfl, fun k => by cases k <;> rfl, rfl⟩
      · rename_i name service rest _
        obtain ⟨tr, evs, hb⟩ := closeBody_after name service s
        have hf := after_frame s tr evs
        split at h <;> rename_i s1 _ hs1 <;> rw [hs1] at hb <;> simp only at hb <;> cases h <;>
          subst hb <;> exact ⟨hf.1, fun k => by cases k <;> rfl, rfl⟩
    | pushErr k name e =>
      simp only [pushErr] at h
      split at h
      · cases h
      · split at h
        · cases h
        · split at h
          · cases h; exact ⟨rfl, fun k => by cases k <;> rfl, rfl⟩
          · cases h
    | pushInfo name m =>
      simp only [pushInfo] at h
      split at h
      · cases h
      · split at h
        · cases h; exact ⟨rfl, fun k => by cases k <;> rfl, rfl⟩
        · cases h
    | recv i =>
      simp only at h
      split at h
      · cases h
      · split at h
        · have := recvCase_after _ _ _ h
          exact ⟨this.1, this.2.1, this.2.2.2.2.2.2.2⟩
        · cases h
    | abort i =>
      simp only at h
      split at h
      · cases h
      · split at h
        · cases h; exact ⟨rfl, fun k => by cases k <;> rfl, rfl⟩
        · cases h

theorem Close_frame (order : List (String × Service)) (s : State) :
    (Close order s).1.jorum = s.jorum ∧ (∀ k, (Close order s).1.wired k = s.wired k) := by
  unfold Close
  split
  · exact ⟨rfl, fun k => by cases k <;> rfl⟩
  · obtain ⟨tr, evs, hl⟩ := closeLoop_after order { s with abortClosed := true }
    simp only []
    rw [hl]
    exact ⟨rfl, fun k => by cases k <;> rfl⟩

theorem Close_abortClosed (order : List (String × Service)) (s : State) :
    (Close order s).1.abortClosed = true := by
  unfold Close
  split
  · assumption
  · obtain ⟨tr, evs, hl⟩ := closeLoop_after order { s with abortClosed := true }
    simp only []
    rw [hl]
    rfl

theorem closeBody_closing (name : String) (service : Service) (s : State)
    (x : Option (List (String × Service))) :
    closeBody name service { s with closing := x }
      = ({ (closeBody name service s).1 with closing := x }, (closeBody name service s).2) := by
  unfold closeBody
  cases asCloser service with
  | none => rfl
  | some result =>
    cases result with
    | none => rfl
    | some e => rfl

theorem closeBody_panicked (name : String) (service : Service) (s : State) :
    (closeBody name service s).1.panicked = s.panicked := by
  obtain ⟨tr, evs, h⟩ := closeBody_after name service s
  rw [h]
  rfl

theorem step_closeIter_cons (s : State) (name : String) (service : Service)
    (rest : List (String × Service)) (h : s.panicked = false)
    (hc : s.closing = some ((name, service) :: rest)) :
    step Action.closeIter s
      = match closeBody name service s with
        | (s1, some _) => some { s1 with closing := none }
        | (s1, none) => some { s1 with closing := some rest } := by
  unfold step
  rw [if_neg (by rw [h]; decide)]
  simp only [hc]

theorem step_closeIter_nil (s : State) (h : s.panicked = false) (hc : s.closing = some []) :
    step Action.closeIter s = some { s with closing := none } := by
  unfold step
  rw [if_neg (by rw [h]; decide)]
  simp only [hc]

theorem closeIter_steps (L : List (String × Service)) (s : State) (h : s.panicked = false) :
    ∃ n, exec (List.replicate n Action.closeIter) { s with closing := some L }
      = some { (closeLoop L s).1 with closing := none } := by
  induction L generalizing s with
  | nil =>
    refine ⟨1, ?_⟩
    simp only [List.replicate_succ, List.replicate_zero, exec]
    rw [step_closeIter_nil { s with closing := some [] } h rfl]
    rfl
  | cons p L ih =>
    obtain ⟨name, service⟩ := p
    have hb := closeBody_closing name service s (some ((name, service) :: L))
    have hst := step_closeIter_cons { s with closing := some ((name, service) :: L) }
      name service L h rfl
    rw [hb] at hst
    cases hr : closeBody name service s with
    | mk s1 r =>
      rw [hr] at hst
      cases r with
      | some e =>
        refine ⟨1, ?_⟩
        simp only [List.replicate_succ, List.replicate_zero, exec, hst, closeLoop, hr]
      | none =>
        have hp : s1.panicked = false := by
          have := closeBody_panicked name service s
          rw [hr] at this
          rw [this, h]
        obtain ⟨n, hn⟩ := ih s1 hp
        refine ⟨n + 1, ?_⟩
        simp only [List.replicate_succ, exec, hst, closeLoop, hr]
        exact hn

/-- A `Close` call that is not interleaved with other steps: the step that
closes the abort signal followed by the iterations of the loop reaches the state
that the function `Close` returns. -/
theorem Close_as_steps (order : List (String × Service)) (s : State)
    (hopen : s.abortClosed = false) (halive : s.panicked = false) (hnone : s.closing = none)
    (hperm : order.Perm s.jorum) :
    ∃ n, exec (Action.closeCall order :: List.replicate n Action.closeIter) s
      = some (Close order s).1 := by
  obtain ⟨n, hn⟩ := closeIter_steps order { s with abortClosed := true } halive
  refine ⟨n, ?_⟩
  have hstep : step (Action.closeCall order) s
      = some { s with abortClosed := true, closing := some order } := by
    unfold step
    rw [if_neg (by rw [halive]; decide)]
    simp only [hperm, hopen, if_true, Bool.false_eq_true, if_false]
  simp only [exec, hstep]
  rw [hn]
  simp only [Close, hopen]
  obtain ⟨tr, evs, hl⟩ := closeLoop_after order { s with abortClosed := true }
  simp only [Bool.false_eq_true, if_false]
  rw [hl]
  simp [State.after, hnone]


/-- C5, as stated, fails for a `Close()` that follows another one.  In
`oneCloser` the only closeable service closes with success and the first
`Close()` returns nil; the registry is the same afterwards and still no close
fails, yet the second `Close()` does not return nil: it panics, and it neither
announces nor closes the service. -/
theorem C5_second_close_does_not_return :
    oneCloser.jorum = [("a", some svcA)] ∧
    asCloser (some svcA) = some none ∧
    (Close [("a", some svcA)] oneCloser).2 = Outcome.returned none ∧
    closedOnce.jorum = [("a", some svcA)] ∧
    (Close [("a", some svcA)] closedOnce).2 = Outcome.panicked ∧
    (Close [("a", some svcA)] closedOnce).1.trace = closedOnce.trace := by
  refine ⟨?_, ?_, ?_, ?_, ?_, ?_⟩ <;> decide

/-- C5, amended: with the info subscriber queues as sequences that never block,
a `Close()` that finds the abort signal open is fail-fast.  Let `L` be the order
in which its loop visits the entries of the registry.

* If `L = pre ++ (name, service) :: post`, no closeable service of `pre` fails
  and the close of `service` fails with `cause`, then `Close` returns the error
  that wraps `cause` and whose message names `name`; its effects are, for each
  closeable service of `pre` in order, the 'trying to close' info event sent to
  every entry of the info subscriber list, the call of its close and the
  'successfully closed' info event sent likewise, and then the 'trying to
  close' event of `name` and the call of its close, nothing more.
* If no closeable service fails, `Close` returns nil and its effects are those
  three steps for each closeable service of `L`, in order.
* `Close` returns nil exactly when no closeable service's close fails.
* The abort signal is closed afterwards, and nothing is sent on the queues
  subscribed through `OnError`, `OnWarn` or `OnClose`. -/
theorem C5_close_is_fail_fast (s : State) (L : List (String × Service))
    (hopen : s.abortClosed = false) (hL : L.Perm s.jorum) :
    (∀ pre name service cause post, L = pre ++ (name, service) :: post →
      (∀ p ∈ pre, ∀ e, asCloser p.2 ≠ some (some e)) →
      asCloser service = some (some cause) →
      Close L s
        = (s.afterClose ((closeables pre).flatMap (closedSteps s.infoChs)
              ++ failedSteps s.infoChs name)
            ((closeables pre).flatMap closedEvents ++ [⟨name, tryingMsg name⟩]),
          Outcome.returned (some (closeFailure name cause))) ∧
      (closeFailure name cause).Unwrap = some cause ∧
      (closeFailure name cause).Error
        = "failed to call Close on jorum service named " ++ name ++ ": " ++ cause.Error) ∧
    ((∀ p ∈ L, ∀ e, asCloser p.2 ≠ some (some e)) →
      Close L s
        = (s.afterClose ((closeables L).flatMap (closedSteps s.infoChs))
            ((closeables L).flatMap closedEvents), Outcome.returned none)) ∧
    ((Close L s).2 = Outcome.returned none ↔ ∀ p ∈ L, ∀ e, asCloser p.2 ≠ some (some e)) ∧
    (Close L s).1.abortClosed = true ∧
    (Close L s).1.errorEventQ = s.errorEventQ := by
  have _ := hL
  refine ⟨?_, ?_, ?_, Close_abortClosed L s, ?_⟩
  · intro pre name service cause post hsplit hpre hc
    refine ⟨?_, rfl, rfl⟩
    have h := closeLoop_first_failure pre post name service cause
      { s with abortClosed := true } [] [] hpre hc
    rw [after_nil] at h
    simp only [Close, hopen, hsplit, h, State.afterClose]
    simp
  · intro hall
    have h := closeLoop_all_closed L { s with abortClosed := true } [] [] hall
    rw [after_nil] at h
    simp only [Close, hopen, h, State.afterClose]
    simp
  · simp only [Close, hopen]
    simp [closeLoop_nil_iff]
  · obtain ⟨tr, evs, hl⟩ := closeLoop_after L { s with abortClosed := true }
    simp only [Close, hopen, Bool.false_eq_true, if_false]
    rw [hl]
    rfl

theorem C5_close_is_fail_fast_witness :
    shutdownState.abortClosed = false ∧
    shutdownState.infoChs = [7] ∧
    (Close [("a", some svcA), ("b", some svcB)] shutdownState
      = (shutdownState.afterClose
            ((closeables [("a", some svcA)]).flatMap (closedSteps shutdownState.infoChs)
              ++ failedSteps shutdownState.infoChs "b")
            ((closeables [("a", some svcA)]).flatMap closedEvents ++ [⟨"b", tryingMsg "b"⟩]),
          Outcome.returned (some (closeFailure "b" (Err.errorString "X")))) ∧
      (closeFailure "b" (Err.errorString "X")).Unwrap = some (Err.errorString "X") ∧
      (closeFailure "b" (Err.errorString "X")).Error
        = "failed to call Close on jorum service named " ++ "b" ++ ": "
          ++ (Err.errorString "X").Error) ∧
    (Close [("b", some svcB), ("a", some svcA)] shutdownState
      = (shutdownState.afterClose
            ((closeables []).flatMap (closedSteps shutdownState.infoChs)
              ++ failedSteps shutdownState.infoChs "b")
            ((closeables []).flatMap closedEvents ++ [⟨"b", tryingMsg "b"⟩]),
          Outcome.returned (some (closeFailure "b" (Err.errorString "X")))) ∧
      (closeFailure "b" (Err.errorString "X")).Unwrap = some (Err.errorString "X") ∧
      (closeFailure "b" (Err.errorString "X")).Error
        = "failed to call Close on jorum service named " ++ "b" ++ ": "
          ++ (Err.errorString "X").Error) ∧
    (Close [("a", some svcA), ("b", some svcB)] shutdownState).1.trace
      = shutdownState.trace
        ++ [Effect.infoEmitted ⟨"a", "jorum is trying to close an service named a"⟩,
            Effect.infoSend 7 ⟨"a", "jorum is trying to close an service named a"⟩,
            Effect.closeCall "a",
            Effect.infoEmitted ⟨"a", "jorum successfully closed an service named a"⟩,
            Effect.infoSend 7 ⟨"a", "jorum successfully closed an service named a"⟩,
            Effect.infoEmitted ⟨"b", "jorum is trying to close an service named b"⟩,
            Effect.infoSend 7 ⟨"b", "jorum is trying to close an service named b"⟩,
            Effect.closeCall "b"] :=
  ⟨rfl, rfl,
   (C5_close_is_fail_fast shutdownState [("a", some svcA), ("b", some svcB)] rfl
      (by decide)).1 [("a", some svcA)] "b" (some svcB) (Err.errorString "X") [] rfl
      (by simp [asCloser, svcA]) rfl,
   (C5_close_is_fail_fast shutdownState [("b", some svcB), ("a", some svcA)] rfl
      (by decide)).1 [] "b" (some svcB) (Err.errorString "X") [("a", some svcA)] rfl
      (by simp) rfl,
   by decide⟩

/-- C9: when the abort signal is already closed, a `Close()` call panics on
`close(abortCh)`: it does not return, it calls the close of no service and
emits no info event; nothing but the death of the process is recorded in the
state, and the dead process takes no further step.  The signal is closed after
every `Close()` call, so a `Close()` that follows another one panics. -/
theorem C9_second_close_panics (s : State) (L : List (String × Service))
    (h : s.abortClosed = true) :
    (Close L s).2 = Outcome.panicked ∧
    (Close L s).1 = { s with panicked := true } ∧
    (Close L s).1.trace = s.trace ∧
    (Close L s).1.infoEventQ = s.infoEventQ ∧
    (∀ a, step a (Close L s).1 = none) ∧
    (∀ t L0, (Close L (Close L0 t).1).2 = Outcome.panicked) := by
  refine ⟨by simp [Close, h], by simp [Close, h], by simp [Close, h], by simp [Close, h],
    fun a => by simp [Close, h, step], fun t L0 => ?_⟩
  have h2 := Close_abortClosed L0 t
  generalize (Close L0 t).1 = u at h2
  simp [Close, h2]

theorem C9_second_close_panics_witness :
    (Close [] (Close [] State.init).1).2 = Outcome.panicked ∧
    (Close [] (Close [] State.init).1).1 = { (Close [] State.init).1 with panicked := true } ∧
    (Close [] (Close [] State.init).1).1.trace = (Close [] State.init).1.trace ∧
    (Close [] (Close [] State.init).1).1.infoEventQ = (Close [] State.init).1.infoEventQ :=
  ⟨(C9_second_close_panics (Close [] State.init).1 [] rfl).1,
    (C9_second_close_panics (Close [] State.init).1 [] rfl).2.1,
    (C9_second_close_panics (Close [] State.init).1 [] rfl).2.2.1,
    (C9_second_close_panics (Close [] State.init).1 [] rfl).2.2.2.1⟩

theorem Reachable.wiredRegistered {s : State} (h : Reachable s) : WiredRegistered s := by
  induction h with
  | init =>
    intro k name _
    cases k <;> rfl
  | step a s s' _ hstep ih =>
    by_cases ha : ∃ name service, a = Action.register name service
    · obtain ⟨name, service, rfl⟩ := ha
      unfold Jorum.step at hstep
      split at hstep
      · cases hstep
      · cases hstep
        exact WiredRegistered_Register name service s ih
    · have hf := step_frame a s s' hstep (fun name service e => ha ⟨name, service, e⟩)
      intro k name hn
      rw [hf.2.1 k]
      rw [hf.1] at hn
      exact ih k name hn
  | close order s _ _ ih =>
    have hf := Close_frame order s
    intro k name hn
    rw [hf.2 k]
    rw [hf.1] at hn
    exact ih k name hn

/-- C3: in every reachable state, for every name that is not registered and
every service, `Register(name, service)` succeeds whatever the capabilities of
the service; afterwards, for each of the four kinds, `name` is a key of the
wiring record of that kind exactly when the service implements the capability,
the setter calls made are those of the implemented capabilities, in the order
error, warn, close, info, each with the very channel recorded under `name`, and
the entries under other names are unchanged.  A service without any capability
changes no wiring record, has no setter called, and adds no dispatch worker to
those `Ready` starts. -/
theorem C3_register_wires_capabilities (s : State) (name : String) (service : Service)
    (hr : Reachable s) (hn : mapGet s.jorum name = none) :
    (Register name service s).2 = none ∧
    (∀ k, (mapGet ((Register name service s).1.wired k) name).isSome = implements k service) ∧
    (Register name service s).1.trace
      = s.trace ++ [Kind.error, Kind.warn, Kind.close, Kind.info].filterMap
          (fun k => (mapGet ((Register name service s).1.wired k) name).map
            (fun ch => Effect.setter k name ch)) ∧
    (∀ k other, other ≠ name →
      mapGet ((Register name service s).1.wired k) other = mapGet (s.wired k) other) ∧
    ((∀ k, implements k service = false) →
      (∀ k, (Register name service s).1.wired k = s.wired k) ∧
      (Register name service s).1.trace = s.trace ∧
      (Ready (Register name service s).1).workers = (Ready s).workers) := by
  have hw := hr.wiredRegistered
  have h1 : mapGet s.servicesErrorChs name = none := hw Kind.error name hn
  have h2 : mapGet s.servicesWarnChs name = none := hw Kind.warn name hn
  have h3 : mapGet s.servicesCloseChs name = none := hw Kind.close name hn
  have h4 : mapGet s.servicesInfoChs name = none := hw Kind.info name hn
  refine ⟨Register_error name service s hn, ?_, ?_, ?_, ?_⟩
  · intro k
    rcases service with _ | ⟨id, b1, b2, b3, b4, c⟩
    · cases k <;> simp [Register, hn, wire, implements, State.wired, h1, h2, h3, h4]
    · cases k <;> cases b1 <;> cases b2 <;> cases b3 <;> cases b4 <;>
        simp [Register, hn, wire, implements, State.wired, h1, h2, h3, h4, mapGet_mapSet_self]
  · rcases service with _ | ⟨id, b1, b2, b3, b4, c⟩
    · simp [Register, hn, wire, implements, State.wired, h1, h2, h3, h4]
    · cases b1 <;> cases b2 <;> cases b3 <;> cases b4 <;>
        simp [Register, hn, wire, implements, State.wired, h1, h2, h3, h4, mapGet_mapSet_self]
  · intro k other ho
    exact Register_wired_ne name other service s k ho
  · intro hnone
    have e1 := hnone Kind.error
    have e2 := hnone Kind.warn
    have e3 := hnone Kind.close
    have e4 := hnone Kind.info
    refine ⟨fun k => ?_, ?_, ?_⟩
    · cases k <;> simp [Register, hn, wire, e1, e2, e3, e4, State.wired]
    · simp [Register, hn, wire, e1, e2, e3, e4]
    · simp [Register, hn, wire, e1, e2, e3, e4, Ready]

theorem C3_register_wires_capabilities_witness :
    Reachable oneInfoSubscriber ∧ mapGet oneInfoSubscriber.jorum "c" = none ∧
    (Register "c" (some svcC) oneInfoSubscriber).2 = none ∧
    (∀ k, (mapGet ((Register "c" (some svcC) oneInfoSubscriber).1.wired k) "c").isSome
      = implements k (some svcC)) ∧
    (Register "c" (some svcC) oneInfoSubscriber).1.trace
      = oneInfoSubscriber.trace ++ [Kind.error, Kind.warn, Kind.close, Kind.info].filterMap
          (fun k => (mapGet ((Register "c" (some svcC) oneInfoSubscriber).1.wired k) "c").map
            (fun ch => Effect.setter k "c" ch)) :=
  ⟨Reachable.step (Action.onInfo 7) State.init oneInfoSubscriber Reachable.init rfl, rfl,
    (C3_register_wires_capabilities oneInfoSubscriber "c" (some svcC)
      (Reachable.step (Action.onInfo 7) State.init oneInfoSubscriber Reachable.init rfl) rfl).1,
    (C3_register_wires_capabilities oneInfoSubscriber "c" (some svcC)
      (Reachable.step (Action.onInfo 7) State.init oneInfoSubscriber Reachable.init rfl) rfl).2.1,
    (C3_register_wires_capabilities oneInfoSubscriber "c" (some svcC)
      (Reachable.step (Action.onInfo 7) State.init oneInfoSubscriber Reachable.init rfl)
      rfl).2.2.1⟩

/-! ## The system after the abort signal is closed -/

/-- C6, as stated, fails.  With an event pending in the wired queue when the
abort signal is closed, both cases of the worker's select are ready, and the
step that takes the receive case delivers the event to the subscriber; the
loop of `Close` itself, which runs after `close(abortCh)`, puts its info event
on the info subscriber's queue; and when all workers have returned and `Close`
has ended, a further `Ready()` starts a new worker on the wired queue, whose
receive case delivers the pending event. -/
theorem C6_delivery_after_abort :
    (exec pendingAtAbort State.init).map (fun s => s.abortClosed) = some true ∧
    (exec pendingAtAbort State.init).map (fun s => s.errorEventQ 0) = some [] ∧
    (exec (pendingAtAbort ++ [Action.recv 0]) State.init).map (fun s => s.errorEventQ 0)
      = some [⟨"A", some (Err.errorString "e1")⟩] ∧
    (exec closingAfterAbort State.init).map (fun s => s.abortClosed) = some true ∧
    (exec closingAfterAbort State.init).map (fun s => s.infoEventQ 7) = some [] ∧
    (exec (closingAfterAbort ++ [Action.closeIter]) State.init).map (fun s => s.infoEventQ 7)
      = some [⟨"a", "jorum is trying to close an service named a"⟩,
              ⟨"a", "jorum successfully closed an service named a"⟩] ∧
    (exec quietRun State.init).map
        (fun s => (s.abortClosed, s.closing, s.workers.map (fun w => w.running),
          s.errorEventQ 0))
      = some (true, none, [false], []) ∧
    (exec (quietRun ++ [Action.ready, Action.recv 1]) State.init).map
        (fun s => s.errorEventQ 0)
      = some [⟨"A", some (Err.errorString "e1")⟩] := by
  refine ⟨?_, ?_, ?_, ?_, ?_, ?_, ?_, ?_⟩ <;> first | decide | rfl

theorem wire_frame (k : Kind) (name : String) (service : Service) (s : State) :
    (wire k name service s).workers = s.workers ∧
    (wire k name service s).errorEventQ = s.errorEventQ ∧
    (wire k name service s).infoEventQ = s.infoEventQ ∧
    (∀ k', (wire k name service s).subs k' = s.subs k') ∧
    (wire k name service s).abortClosed = s.abortClosed ∧
    (wire k name service s).panicked = s.panicked ∧
    (wire k name service s).closing = s.closing := by
  unfold wire
  split
  · cases k <;> exact ⟨rfl, rfl, rfl, fun k' => by cases k' <;> rfl, rfl, rfl, rfl⟩
  · exact ⟨rfl, rfl, rfl, fun k' => rfl, rfl, rfl, rfl⟩

theorem Register_frame (name : String) (service : Service) (s : State) :
    (Register name service s).1.workers = s.workers ∧
    (Register name service s).1.errorEventQ = s.errorEventQ ∧
    (Register name service s).1.infoEventQ = s.infoEventQ ∧
    (∀ k', (Register name service s).1.subs k' = s.subs k') ∧
    (Register name service s).1.abortClosed = s.abortClosed ∧
    (Register name service s).1.panicked = s.panicked ∧
    (Register name service s).1.closing = s.closing := by
  unfold Register
  split
  · exact ⟨rfl, rfl, rfl, fun k' => rfl, rfl, rfl, rfl⟩
  · simp only []
    have f4 := wire_frame Kind.info name service
      (wire Kind.close name service (wire Kind.warn name service
        (wire Kind.error name service { s with jorum := mapSet s.jorum name service })))
    have f3 := wire_frame Kind.close name service (wire Kind.warn name service
        (wire Kind.error name service { s with jorum := mapSet s.jorum name service }))
    have f2 := wire_frame Kind.warn name service
        (wire Kind.error name service { s with jorum := mapSet s.jorum name service })
    have f1 := wire_frame Kind.error name service { s with jorum := mapSet s.jorum name service }
    refine ⟨?_, ?_, ?_, fun k' => ?_, ?_, ?_, ?_⟩
    · rw [f4.1, f3.1, f2.1, f1.1]
    · rw [f4.2.1, f3.2.1, f2.2.1, f1.2.1]
    · rw [f4.2.2.1, f3.2.2.1, f2.2.2.1, f1.2.2.1]
    · rw [f4.2.2.2.1, f3.2.2.2.1, f2.2.2.2.1, f1.2.2.2.1]
      cases k' <;> rfl
    · rw [f4.2.2.2.2.1, f3.2.2.2.2.1, f2.2.2.2.2.1, f1.2.2.2.2.1]
    · rw [f4.2.2.2.2.2.1, f3.2.2.2.2.2.1, f2.2.2.2.2.2.1, f1.2.2.2.2.2.1]
    · rw [f4.2.2.2.2.2.2, f3.2.2.2.2.2.2, f2.2.2.2.2.2.2, f1.2.2.2.2.2.2]

theorem stopWorker_getElem (ws : List Worker) (i j : Nat) :
    (stopWorker ws i)[j]?
      = if j = i then ws[j]?.map (fun w => { w with running := false }) else ws[j]? := by
  induction ws generalizing i j with
  | nil => simp [stopWorker]
  | cons w ws ih =>
    cases i with
    | zero =>
      cases j with
      | zero => simp [stopWorker]
      | succ j => simp [stopWorker]
    | succ i =>
      cases j with
      | zero => simp [stopWorker]
      | succ j => simp [stopWorker, ih]

theorem Stopped.recv_none {i : Nat} {s : State} (h : Stopped i s) :
    step (Action.recv i) s = none := by
  obtain ⟨w, hw, hr⟩ := h
  unfold step
  split
  · rfl
  · simp [hw, hr]

theorem step_abortClosed (a : Action) (s s' : State) (h : step a s = some s') :
    s'.abortClosed = true ∨ s'.abortClosed = s.abortClosed := by
  unfold step at h
  split at h
  · cases h
  · cases a with
    | register name service => cases h; exact Or.inr (Register_frame name service s).2.2.2.2.1
    | onError ch => cases h; exact Or.inr rfl
    | onWarn ch => cases h; exact Or.inr rfl
    | onClose ch => cases h; exact Or.inr rfl
    | onInfo ch => cases h; exact Or.inr rfl
    | ready => cases h; exact Or.inr rfl
    | closeCall order =>
      simp only at h
      split at h
      · split at h <;> cases h
        · exact Or.inr rfl
        · exact Or.inl rfl
      · cases h
    | closeIter =>
      simp only at h
      split at h
      · cases h
      · cases h; exact Or.inr rfl
      · rename_i name service rest _
        obtain ⟨tr, evs, hb⟩ := closeBody_after name service s
        split at h <;> rename_i s1 _ hs1 <;> rw [hs1] at hb <;> simp only at hb <;> cases h <;>
          subst hb <;> exact Or.inr rfl
    | pushErr k name e =>
      simp only [pushErr] at h
      split at h
      · cases h
      · split at h
        · cases h
        · split at h
          · cases h; exact Or.inr rfl
          · cases h
    | pushInfo name m =>
      simp only [pushInfo] at h
      split at h
      · cases h
      · split at h
        · cases h; exact Or.inr rfl
        · cases h
    | recv i =>
      simp only at h
      split at h
      · cases h
      · split at h
        · exact Or.inr (recvCase_after _ _ _ h).2.2.2.2.1
        · cases h
    | abort i =>
      simp only at h
      split at h
      · cases h
      · split at h
        · cases h; exact Or.inr rfl
        · cases h

theorem step_workers (a : Action) (s s' : State) (h : step a s = some s') :
    s'.workers = s.workers ∨ (a = Action.ready ∧ ∃ extra, s'.workers = s.workers ++ extra) ∨
    (∃ j, a = Action.abort j ∧ s.abortClosed = true ∧ s'.workers = stopWorker s.workers j) := by
  unfold step at h
  split at h
  · cases h
  · cases a with
    | register name service => cases h; exact Or.inl (Register_frame name service s).1
    | onError ch => cases h; exact Or.inl rfl
    | onWarn ch => cases h; exact Or.inl rfl
    | onClose ch => cases h; exact Or.inl rfl
    | onInfo ch => cases h; exact Or.inl rfl
    | ready =>
      cases h
      refine Or.inr (Or.inl ⟨rfl, spawn Kind.error s.servicesErrorChs
        ++ spawn Kind.warn s.servicesWarnChs ++ spawn Kind.close s.servicesCloseChs
        ++ spawn Kind.info s.servicesInfoChs, ?_⟩)
      simp [Ready]
    | closeCall order =>
      simp only at h
      split at h
      · split at h <;> cases h <;> exact Or.inl rfl
      · cases h
    | closeIter =>
      simp only at h
      split at h
      · cases h
      · cases h; exact Or.inl rfl
      · rename_i name service rest _
        obtain ⟨tr, evs, hb⟩ := closeBody_after name service s
        split at h <;> rename_i s1 _ hs1 <;> rw [hs1] at hb <;> simp only at hb <;> cases h <;>
          subst hb <;> exact Or.inl rfl
    | pushErr k name e =>
      simp only [pushErr] at h
      split at h
      · cases h
      · split at h
        · cases h
        · split at h
          · cases h; exact Or.inl rfl
          · cases h
    | pushInfo name m =>
      simp only [pushInfo] at h
      split at h
      · cases h
      · split at h
        · cases h; exact Or.inl rfl
        · cases h
    | recv i =>
      simp only at h
      split at h
      · cases h
      · split at h
        · exact Or.inl (recvCase_after _ _ _ h).2.2.2.1
        · cases h
    | abort i =>
      simp only at h
      split at h
      · cases h
      · split at h
        · rename_i w _ hc
          cases h
          simp only [Bool.and_eq_true] at hc
          exact Or.inr (Or.inr ⟨i, rfl, hc.2, rfl⟩)
        · cases h

theorem step_queues (a : Action) (s s' : State) (h : step a s = some s')
    (hrecv : ∀ i, a ≠ Action.recv i) (hiter : a ≠ Action.closeIter) :
    s'.errorEventQ = s.errorEventQ ∧ s'.infoEventQ = s.infoEventQ := by
  unfold step at h
  split at h
  · cases h
  · cases a with
    | register name service =>
      cases h
      exact ⟨(Register_frame name service s).2.1, (Register_frame name service s).2.2.1⟩
    | onError ch => cases h; exact ⟨rfl, rfl⟩
    | onWarn ch => cases h; exact ⟨rfl, rfl⟩
    | onClose ch => cases h; exact ⟨rfl, rfl⟩
    | onInfo ch => cases h; exact ⟨rfl, rfl⟩
    | ready => cases h; exact ⟨rfl, rfl⟩
    | closeCall order =>
      simp only at h
      split at h
      · split at h <;> cases h <;> exact ⟨rfl, rfl⟩
      · cases h
    | closeIter => exact absurd rfl hiter
    | pushErr k name e =>
      simp only [pushErr] at h
      split at h
      · cases h
      · split at h
        · cases h
        · split at h
          · cases h; exact ⟨rfl, rfl⟩
          · cases h
    | pushInfo name m =>
      simp only [pushInfo] at h
      split at h
      · cases h
      · split at h
        · cases h; exact ⟨rfl, rfl⟩
        · cases h
    | recv i => exact absurd rfl (hrecv i)
    | abort i =>
      simp only at h
      split at h
      · cases h
      · split at h
        · cases h; exact ⟨rfl, rfl⟩
        · cases h

theorem Stopped.stopped_step {i : Nat} {s s' : State} (a : Action) (hs : Stopped i s)
    (h : step a s = some s') : Stopped i s' := by
  obtain ⟨w, hw, hr⟩ := hs
  rcases step_workers a s s' h with e | ⟨_, extra, e⟩ | ⟨j, _, _, e⟩
  · exact ⟨w, by rw [e]; exact hw, hr⟩
  · refine ⟨w, ?_, hr⟩
    rw [e]
    have hlt : i < s.workers.length := by
      by_contra hge
      rw [List.getElem?_eq_none (Nat.le_of_not_lt hge)] at hw
      cases hw
    rw [List.getElem?_append_left hlt]
    exact hw
  · rw [Stopped, e, stopWorker_getElem]
    by_cases hij : i = j
    · subst hij
      exact ⟨{ w with running := false }, by simp [hw], rfl⟩
    · exact ⟨w, by simp [hij, hw], hr⟩

theorem Stopped.stopped_exec {i : Nat} (acts : List Action) {s s' : State} (hs : Stopped i s)
    (h : exec acts s = some s') : Stopped i s' := by
  induction acts generalizing s with
  | nil =>
    simp only [Jorum.exec, Option.some.injEq] at h
    exact h ▸ hs
  | cons a acts ih =>
    simp only [Jorum.exec] at h
    cases hst : Jorum.step a s with
    | none => simp [hst] at h
    | some s1 =>
      rw [hst] at h
      exact ih (hs.stopped_step a hst) h

theorem step_closing (a : Action) (s s' : State) (h : step a s = some s')
    (habort : s.abortClosed = true) (hc : s.closing = none) : s'.closing = none := by
  unfold step at h
  split at h
  · cases h
  · cases a with
    | register name service =>
      cases h
      rw [(Register_frame name service s).2.2.2.2.2.2, hc]
    | onError ch => cases h; exact hc
    | onWarn ch => cases h; exact hc
    | onClose ch => cases h; exact hc
    | onInfo ch => cases h; exact hc
    | ready => cases h; exact hc
    | closeCall order =>
      simp only [habort, if_true] at h
      split at h
      · cases h; exact hc
      · cases h
    | closeIter => simp [hc] at h
    | pushErr k name e =>
      simp only [pushErr] at h
      split at h
      · cases h
      · split at h
        · cases h
        · split at h
          · cases h; exact hc
          · cases h
    | pushInfo name m =>
      simp only [pushInfo] at h
      split at h
      · cases h
      · split at h
        · cases h; exact hc
        · cases h
    | recv i =>
      simp only at h
      split at h
      · cases h
      · split at h
        · rw [(recvCase_after _ _ _ h).2.2.2.2.2.2.1, hc]
        · cases h
    | abort i =>
      simp only at h
      split at h
      · cases h
      · split at h
        · cases h; exact hc
        · cases h

theorem mem_stopWorker (ws : List Worker) (j : Nat) (w : Worker)
    (h : w ∈ stopWorker ws j) : w ∈ ws ∨ w.running = false := by
  induction ws generalizing j with
  | nil => simp [stopWorker] at h
  | cons x ws ih =>
    cases j with
    | zero =>
      simp only [stopWorker, List.mem_cons] at h
      rcases h with e | e
      · exact Or.inr (by rw [e])
      · exact Or.inl (List.mem_cons_of_mem _ e)
    | succ j =>
      simp only [stopWorker, List.mem_cons] at h
      rcases h with e | e
      · exact Or.inl (by rw [e]; exact List.mem_cons_self _ _)
      · rcases ih j e with e' | e'
        · exact Or.inl (List.mem_cons_of_mem _ e')
        · exact Or.inr e'

theorem Quiet.quiet_step {s s' : State} (hq : Quiet s) (a : Action) (ha : a ≠ Action.ready)
    (h : step a s = some s') :
    Quiet s' ∧ s'.errorEventQ = s.errorEventQ ∧ s'.infoEventQ = s.infoEventQ := by
  obtain ⟨habort, hall, hc⟩ := hq
  refine ⟨⟨?_, ?_, step_closing a s s' h habort hc⟩, ?_⟩
  · rcases step_abortClosed a s s' h with e | e
    · exact e
    · rw [e, habort]
  · rcases step_workers a s s' h with e | ⟨e, _⟩ | ⟨j, _, _, e⟩
    · rw [e]; exact hall
    · exact absurd e ha
    · intro w hw
      rw [e] at hw
      rcases mem_stopWorker _ _ _ hw with e' | e'
      · exact hall w e'
      · exact e'
  · apply step_queues a s s' h
    · intro i hi
      subst hi
      unfold step at h
      split at h
      · cases h
      · simp only at h
        split at h
        · cases h
        · rename_i w hw
          have := hall w (List.getElem?_mem hw)
          simp [this] at h
    · intro hi
      subst hi
      unfold step at h
      split at h
      · cases h
      · simp [hc] at h

theorem Quiet.quiet_exec {s s' : State} (hq : Quiet s) (acts : List Action)
    (ha : ∀ a ∈ acts, a ≠ Action.ready) (h : exec acts s = some s') :
    Quiet s' ∧ s'.errorEventQ = s.errorEventQ ∧ s'.infoEventQ = s.infoEventQ := by
  induction acts generalizing s with
  | nil =>
    simp only [exec, Option.some.injEq] at h
    subst h
    exact ⟨hq, rfl, rfl⟩
  | cons a acts ih =>
    simp only [exec] at h
    cases hst : step a s with
    | none => simp [hst] at h
    | some s1 =>
      rw [hst] at h
      have h1 := hq.quiet_step a (ha a (List.mem_cons_self _ _)) hst
      have h2 := ih h1.1 (fun b hb => ha b (List.mem_cons_of_mem _ hb)) h
      exact ⟨h2.1, by rw [h2.2.1, h1.2.1], by rw [h2.2.2, h1.2.2]⟩

theorem exec_abortClosed (acts : List Action) (s s' : State) (habort : s.abortClosed = true)
    (h : exec acts s = some s') : s'.abortClosed = true := by
  induction acts generalizing s with
  | nil =>
    simp only [exec, Option.some.injEq] at h
    exact h ▸ habort
  | cons a acts ih =>
    simp only [exec] at h
    cases hst : step a s with
    | none => simp [hst] at h
    | some s1 =>
      rw [hst] at h
      refine ih s1 ?_ h
      rcases step_abortClosed a s s1 hst with e | e
      · exact e
      · rw [e, habort]

theorem stopWorker_append (pre ws : List Worker) (w : Worker) :
    stopWorker (pre ++ w :: ws) pre.length = pre ++ { w with running := false } :: ws := by
  induction pre with
  | nil => rfl
  | cons x pre ih => simp [stopWorker, ih]

theorem exec_abortRunning (ws pre : List Worker) (t : State)
    (hw : t.workers = pre ++ ws) (habort : t.abortClosed = true) (halive : t.panicked = false) :
    exec (abortRunning ws pre.length) t
      = some { t with workers := pre ++ ws.map (fun w => { w with running := false }) } := by
  induction ws generalizing pre t with
  | nil =>
    simp only [abortRunning, exec, List.map_nil, List.append_nil] at hw ⊢
    rw [← hw]
  | cons w ws ih =>
    by_cases hr : w.running = true
    · have hget : t.workers[pre.length]? = some w := by
        rw [hw, List.getElem?_append_right (Nat.le_refl _)]
        simp
      have hstep : step (Action.abort pre.length) t
          = some { t with workers := pre ++ { w with running := false } :: ws } := by
        unfold step
        rw [if_neg (by rw [halive]; decide)]
        simp only [hget, hr, habort, Bool.and_self, if_true]
        rw [hw, stopWorker_append]
      simp only [abortRunning, hr, if_true, exec, hstep]
      have := ih (pre ++ [{ w with running := false }])
        { t with workers := pre ++ { w with running := false } :: ws }
        (by simp) habort halive
      simp only [List.length_append, List.length_singleton] at this
      rw [this]
      simp
    · have hf : w.running = false := by simpa using hr
      have hw' : ({ w with running := false } : Worker) = w := by
        cases w
        simp_all
      simp only [abortRunning, hf, Bool.false_eq_true, if_false]
      have := ih (pre ++ [w]) t (by simp [hw]) habort halive
      simp only [List.length_append, List.length_singleton] at this
      rw [this]
      simp [hw']

theorem abortRunning_aborts (ws : List Worker) (i : Nat) :
    ∀ a ∈ abortRunning ws i, ∃ j, a = Action.abort j := by
  induction ws generalizing i with
  | nil => simp [abortRunning]
  | cons w ws ih =>
    intro a ha
    simp only [abortRunning] at ha
    split at ha
    · rcases List.mem_cons.mp ha with e | e
      · exact ⟨i, e⟩
      · exact ih (i + 1) a e
    · exact ih (i + 1) a ha

theorem step_abort_open (t : State) (i : Nat) (h : t.abortClosed = false) :
    step (Action.abort i) t = none := by
  unfold step
  split
  · rfl
  · simp only
    split
    · rfl
    · simp [h]

/-- C6, amended.  Let the abort signal be closed, as it is once `Close()` has run
`close(abortCh)`, and the process alive.

* The signal stays closed in every later state.
* Every dispatch worker still in its loop can take the abort case of its
  select; that step changes no subscriber queue, and in no later state can the
  worker take the receive case.
* So the workers can all return: there is a sequence of abort steps after which
  no worker is in its loop, and no subscriber queue has changed.
* Once every worker has returned and no `Close` is in progress, no sequence of
  steps without a further `Ready()` changes any subscriber queue, whatever is
  pending in, or later pushed onto, the wired queues.
* A worker leaves its loop through the abort signal only: while the signal is
  open the abort case cannot be taken. -/
theorem C6_after_abort (s : State) (habort : s.abortClosed = true)
    (halive : s.panicked = false) :
    (∀ acts s', exec acts s = some s' → s'.abortClosed = true) ∧
    (∀ i w, s.workers[i]? = some w → w.running = true →
      ∃ s', step (Action.abort i) s = some s' ∧
        s'.errorEventQ = s.errorEventQ ∧ s'.infoEventQ = s.infoEventQ ∧
        ∀ acts s'', exec acts s' = some s'' → step (Action.recv i) s'' = none) ∧
    (∃ acts s', (∀ a ∈ acts, ∃ i, a = Action.abort i) ∧ exec acts s = some s' ∧
      (∀ w ∈ s'.workers, w.running = false) ∧ s'.closing = s.closing ∧
      s'.errorEventQ = s.errorEventQ ∧ s'.infoEventQ = s.infoEventQ) ∧
    ((∀ w ∈ s.workers, w.running = false) → s.closing = none →
      ∀ acts s', (∀ a ∈ acts, a ≠ Action.ready) → exec acts s = some s' →
        s'.errorEventQ = s.errorEventQ ∧ s'.infoEventQ = s.infoEventQ) ∧
    (∀ t i, t.abortClosed = false → step (Action.abort i) t = none) := by
  refine ⟨fun acts s' h => exec_abortClosed acts s s' habort h, ?_, ?_, ?_, step_abort_open⟩
  · intro i w hw hr
    have hstep : step (Action.abort i) s
        = some { s with workers := stopWorker s.workers i } := by
      unfold step
      rw [if_neg (by rw [halive]; decide)]
      simp only [hw, hr, habort, Bool.and_self, if_true]
    refine ⟨_, hstep, rfl, rfl, ?_⟩
    intro acts s'' hex
    have hst : Stopped i { s with workers := stopWorker s.workers i } :=
      ⟨{ w with running := false }, by simp [stopWorker_getElem, hw], rfl⟩
    exact (hst.stopped_exec acts hex).recv_none
  · refine ⟨abortRunning s.workers 0, _, abortRunning_aborts s.workers 0,
      exec_abortRunning s.workers [] s rfl habort halive, ?_, rfl, rfl, rfl⟩
    intro w hw
    simp only [List.nil_append, List.mem_map] at hw
    obtain ⟨x, _, rfl⟩ := hw
    rfl
  · intro hall hc acts s' ha hex
    exact (Quiet.quiet_exec (s := s) ⟨habort, hall, hc⟩ acts ha hex).2


theorem C6_after_abort_witness :
    abortedState.abortClosed = true ∧ abortedState.panicked = false ∧
    abortedState.errQ 0 = [some (Err.errorString "e1")] ∧
    (∃ s', step (Action.abort 0) abortedState = some s' ∧
      s'.errorEventQ = abortedState.errorEventQ ∧ s'.infoEventQ = abortedState.infoEventQ ∧
      ∀ acts s'', exec acts s' = some s'' → step (Action.recv 0) s'' = none) ∧
    quietState.abortClosed = true ∧ quietState.panicked = false ∧
    quietState.errQ 0 = [some (Err.errorString "e1")] ∧
    (∀ acts s', (∀ a ∈ acts, a ≠ Action.ready) → exec acts quietState = some s' →
      s'.errorEventQ = quietState.errorEventQ ∧ s'.infoEventQ = quietState.infoEventQ) :=
  ⟨rfl, rfl, rfl,
    (C6_after_abort abortedState rfl rfl).2.1 0 (Worker.mk Kind.error "A" 0 true) rfl rfl,
    rfl, rfl, rfl,
    (C6_after_abort quietState rfl rfl).2.2.2.1 (by decide) rfl⟩

/-! ## Delivery in order -/

theorem mem_mapErase {V : Type} (m : List (String × V)) (name n : String) (v : V)
    (h : (n, v) ∈ mapErase m name) : n ≠ name ∧ (n, v) ∈ m := by
  induction m with
  | nil => simp [mapErase] at h
  | cons p m ih =>
    obtain ⟨k, w⟩ := p
    by_cases hk : k = name
    · rw [mapErase, if_pos hk] at h
      exact ⟨(ih h).1, List.mem_cons_of_mem _ (ih h).2⟩
    · rw [mapErase, if_neg hk] at h
      rcases List.mem_cons.mp h with e | e
      · cases e
        exact ⟨hk, List.mem_cons_self _ _⟩
      · exact ⟨(ih e).1, List.mem_cons_of_mem _ (ih e).2⟩

theorem mapSet_entries {V : Type} (m : List (String × V)) (name : String) (v : V)
    (h : ∀ n c, (n, c) ∈ m → mapGet m n = some c) :
    ∀ n c, (n, c) ∈ mapSet m name v → mapGet (mapSet m name v) n = some c := by
  intro n c hm
  rcases List.mem_cons.mp hm with e | e
  · cases e
    exact mapGet_mapSet_self m name v
  · have := mem_mapErase m name n c e
    rw [mapGet_mapSet_ne m name n v this.1]
    exact h n c this.2

theorem wire_entries (k : Kind) (name : String) (service : Service) (s : State)
    (h : ∀ k' n c, (n, c) ∈ s.wired k' → mapGet (s.wired k') n = some c) :
    ∀ k' n c, (n, c) ∈ (wire k name service s).wired k' →
      mapGet ((wire k name service s).wired k') n = some c := by
  intro k' n c
  by_cases hk : k' = k
  · subst hk
    rw [wire_wired_self]
    split
    · exact mapSet_entries _ _ _ (h k') n c
    · exact h k' n c
  · rw [wire_wired_ne k k' name service s hk]
    exact h k' n c

theorem wire_mapGet (k k' : Kind) (name other : String) (service : Service) (s : State) :
    mapGet ((wire k name service s).wired k') other
      = if k' = k ∧ other = name ∧ implements k service = true then some s.nextChan
        else mapGet (s.wired k') other := by
  by_cases hk : k' = k
  · subst hk
    rw [wire_wired_self]
    by_cases hi : implements k' service = true
    · by_cases hn : other = name
      · subst hn
        simp [hi, mapGet_mapSet_self]
      · simp [hi, hn, mapGet_mapSet_ne _ _ _ _ hn]
    · simp [hi]
  · rw [wire_wired_ne k k' name service s hk]
    simp [hk]

theorem SetupInv.wire {s : State} (h : SetupInv s) (k : Kind) (name : String)
    (service : Service) : SetupInv (wire k name service s) := by
  have hf := wire_frame k name service s
  have hbound : ∀ k' n c, mapGet ((Jorum.wire k name service s).wired k') n = some c →
      c < (Jorum.wire k name service s).nextChan := by
    intro k' n c hc
    rw [wire_mapGet] at hc
    rw [wire_nextChan]
    split at hc
    · rename_i hcond
      cases hc
      simp [hcond.2.2]
    · have := h.bound k' n c hc
      split <;> omega
  refine ⟨by rw [hf.1, h.workers], by rw [hf.2.2.2.2.1, h.abortOpen],
    by rw [hf.2.2.2.2.2.1, h.alive], fun q => by rw [hf.2.1, h.errorEventQ],
    fun q => by rw [hf.2.2.1, h.infoEventQ], hbound, ?_,
    wire_entries k name service s h.entries⟩
  intro k1 k2 n1 n2 c h1 h2
  rw [wire_mapGet] at h1 h2
  split at h1
  · rename_i hc1
    cases h1
    split at h2
    · rename_i hc2
      exact ⟨hc1.1.trans hc2.1.symm, hc1.2.1.trans hc2.2.1.symm⟩
    · exact absurd (h.bound _ _ _ h2) (Nat.lt_irrefl _)
  · split at h2
    · cases h2
      exact absurd (h.bound _ _ _ h1) (Nat.lt_irrefl _)
    · exact h.inj k1 k2 n1 n2 c h1 h2

theorem SetupInv.of_eq {s s' : State} (h : SetupInv s) (hw : s'.workers = s.workers)
    (ha : s'.abortClosed = s.abortClosed) (hp : s'.panicked = s.panicked)
    (h1 : s'.errorEventQ = s.errorEventQ) (h2 : s'.infoEventQ = s.infoEventQ)
    (h5 : ∀ k, s'.wired k = s.wired k) (h6 : s'.nextChan = s.nextChan) : SetupInv s' := by
  refine ⟨by rw [hw, h.workers], by rw [ha, h.abortOpen], by rw [hp, h.alive],
    fun q => by rw [h1, h.errorEventQ], fun q => by rw [h2, h.infoEventQ], ?_, ?_, ?_⟩
  · intro k n c hc
    rw [h5] at hc
    rw [h6]
    exact h.bound k n c hc
  · intro k k' n n' c e1 e2
    rw [h5] at e1 e2
    exact h.inj k k' n n' c e1 e2
  · intro k n c hc
    rw [h5] at hc ⊢
    exact h.entries k n c hc

theorem SetupInv.Register {s : State} (h : SetupInv s) (name : String) (service : Service) :
    SetupInv (Register name service s).1 := by
  unfold Jorum.Register
  split
  · exact h
  · have h0 : SetupInv { s with jorum := mapSet s.jorum name service } :=
      h.of_eq rfl rfl rfl rfl rfl (fun k => by cases k <;> rfl) rfl
    exact (((h0.wire Kind.error name service).wire Kind.warn name service).wire
      Kind.close name service).wire Kind.info name service

theorem SetupInv.init : SetupInv State.init :=
  ⟨rfl, rfl, rfl, fun _ => rfl, fun _ => rfl,
    fun k n c hc => (by cases k <;> cases hc),
    fun k k' n n' c h1 _ => (by cases k <;> cases h1),
    fun k n c hc => (by cases k <;> cases hc)⟩

theorem SetupInv.setup_step {s s' : State} (h : SetupInv s) (a : Action) (ha : a.isSetup = true)
    (hstep : step a s = some s') : SetupInv s' := by
  unfold Jorum.step at hstep
  split at hstep
  · cases hstep
  · cases a with
    | register name service => cases hstep; exact h.Register name service
    | onError ch =>
      cases hstep
      exact h.of_eq rfl rfl rfl rfl rfl (fun k => by cases k <;> rfl) rfl
    | onWarn ch =>
      cases hstep
      exact h.of_eq rfl rfl rfl rfl rfl (fun k => by cases k <;> rfl) rfl
    | onClose ch =>
      cases hstep
      exact h.of_eq rfl rfl rfl rfl rfl (fun k => by cases k <;> rfl) rfl
    | onInfo ch =>
      cases hstep
      exact h.of_eq rfl rfl rfl rfl rfl (fun k => by cases k <;> rfl) rfl
    | pushErr k name e =>
      simp only [pushErr] at hstep
      split at hstep
      · cases hstep
      · split at hstep
        · cases hstep
        · split at hstep
          · cases hstep
            exact h.of_eq rfl rfl rfl rfl rfl (fun k => by cases k <;> rfl) rfl
          · cases hstep
    | pushInfo name m =>
      simp only [pushInfo] at hstep
      split at hstep
      · cases hstep
      · split at hstep
        · cases hstep
          exact h.of_eq rfl rfl rfl rfl rfl (fun k => by cases k <;> rfl) rfl
        · cases hstep
    | ready => cases ha
    | closeCall order => cases ha
    | closeIter => cases ha
    | recv i => cases ha
    | abort i => cases ha

theorem SetupInv.setup_exec {s s' : State} (h : SetupInv s) (acts : List Action)
    (ha : ∀ a ∈ acts, a.isSetup = true) (hex : exec acts s = some s') : SetupInv s' := by
  induction acts generalizing s with
  | nil =>
    simp only [Jorum.exec, Option.some.injEq] at hex
    exact hex ▸ h
  | cons a acts ih =>
    simp only [Jorum.exec] at hex
    cases hst : Jorum.step a s with
    | none => simp [hst] at hex
    | some s1 =>
      rw [hst] at hex
      exact ih (h.setup_step a (ha a (List.mem_cons_self _ _)) hst)
        (fun b hb => ha b (List.mem_cons_of_mem _ hb)) hex

theorem RunInv.ready {s0 : State} (h : SetupInv s0) : RunInv s0 (Ready s0) :=
  ⟨h.abortOpen, h.alive, fun k => by cases k <;> rfl, fun k => by cases k <;> rfl, rfl⟩

theorem RunInv.run_step {s0 s s' : State} (h : RunInv s0 s) (a : Action) (ha : a.isRun = true)
    (hstep : step a s = some s') : RunInv s0 s' := by
  have key : s'.abortClosed = s.abortClosed → s'.panicked = s.panicked →
      (∀ k, s'.wired k = s.wired k) → (∀ k, s'.subs k = s.subs k) → s'.workers = s.workers →
      RunInv s0 s' := fun e1 e2 e3 e4 e5 =>
    ⟨by rw [e1, h.abortOpen], by rw [e2, h.alive], fun k => by rw [e3, h.wired],
      fun k => by rw [e4, h.subs], by rw [e5, h.workers]⟩
  unfold Jorum.step at hstep
  split at hstep
  · cases hstep
  · cases a with
    | pushErr k name e =>
      simp only [pushErr] at hstep
      split at hstep
      · cases hstep
      · split at hstep
        · cases hstep
        · split at hstep
          · cases hstep
            exact key rfl rfl (fun k => by cases k <;> rfl) (fun k => by cases k <;> rfl) rfl
          · cases hstep
    | pushInfo name m =>
      simp only [pushInfo] at hstep
      split at hstep
      · cases hstep
      · split at hstep
        · cases hstep
          exact key rfl rfl (fun k => by cases k <;> rfl) (fun k => by cases k <;> rfl) rfl
        · cases hstep
    | recv i =>
      simp only at hstep
      split at hstep
      · cases hstep
      · split at hstep
        · have f := recvCase_after _ _ _ hstep
          exact key f.2.2.2.2.1 f.2.2.2.2.2.1 f.2.1 f.2.2.1 f.2.2.2.1
        · cases hstep
    | abort i =>
      simp only at hstep
      split at hstep
      · cases hstep
      · split at hstep
        · rename_i hc
          simp [h.abortOpen] at hc
        · cases hstep
    | register name service => cases ha
    | onError ch => cases ha
    | onWarn ch => cases ha
    | onClose ch => cases ha
    | onInfo ch => cases ha
    | ready => cases ha
    | closeCall order => cases ha
    | closeIter => cases ha

theorem RunInv.run_exec {s0 s s' : State} (h : RunInv s0 s) (acts : List Action)
    (ha : ∀ a ∈ acts, a.isRun = true) (hex : exec acts s = some s') : RunInv s0 s' := by
  induction acts generalizing s with
  | nil =>
    simp only [Jorum.exec, Option.some.injEq] at hex
    exact hex ▸ h
  | cons a acts ih =>
    simp only [Jorum.exec] at hex
    cases hst : Jorum.step a s with
    | none => simp [hst] at hex
    | some s1 =>
      rw [hst] at hex
      exact ih (h.run_step a (ha a (List.mem_cons_self _ _)) hst)
        (fun b hb => ha b (List.mem_cons_of_mem _ hb)) hex

theorem recvCase_err (w : Worker) (s s' : State) (hk : w.kind ≠ Kind.info)
    (h : recvCase w s = some s') :
    ∃ ev rest, s.errQ w.ch = ev :: rest ∧ s'.errQ = s.errQ.set w.ch rest ∧
      (∀ q, s'.errorEventQ q
        = s.errorEventQ q ++ List.replicate ((s.subs w.kind).count q) ⟨w.name, ev⟩) ∧
      s'.strQ = s.strQ ∧ s'.infoEventQ = s.infoEventQ := by
  unfold recvCase at h
  split at h
  · rename_i hkind
    split at h
    · cases h
    · rename_i ev rest hq
      cases h
      exact ⟨ev, rest, hq, rfl, fun q => by rw [hkind]; exact sendAll_apply _ _ _ _ q, rfl, rfl⟩
  · rename_i hkind
    split at h
    · cases h
    · rename_i ev rest hq
      cases h
      exact ⟨ev, rest, hq, rfl, fun q => by rw [hkind]; exact sendAll_apply _ _ _ _ q, rfl, rfl⟩
  · rename_i hkind
    split at h
    · cases h
    · rename_i ev rest hq
      cases h
      exact ⟨ev, rest, hq, rfl, fun q => by rw [hkind]; exact sendAll_apply _ _ _ _ q, rfl, rfl⟩
  · rename_i hkind
    exact absurd hkind hk

theorem recvCase_info (w : Worker) (s s' : State) (hk : w.kind = Kind.info)
    (h : recvCase w s = some s') :
    ∃ ev rest, s.strQ w.ch = ev :: rest ∧ s'.strQ = s.strQ.set w.ch rest ∧
      (∀ q, s'.infoEventQ q
        = s.infoEventQ q ++ List.replicate (s.infoChs.count q) ⟨w.name, ev⟩) ∧
      s'.errQ = s.errQ ∧ s'.errorEventQ = s.errorEventQ := by
  unfold recvCase at h
  rw [hk] at h
  simp only at h
  split at h
  · cases h
  · rename_i ev rest hq
    cases h
    exact ⟨ev, rest, hq, rfl, fun q => sendAll_apply _ _ _ _ q, rfl, rfl⟩

theorem mem_spawn (k : Kind) (m : List (String × Nat)) (w : Worker) (h : w ∈ spawn k m) :
    w.kind = k ∧ (w.name, w.ch) ∈ m ∧ w.running = true := by
  unfold spawn at h
  obtain ⟨p, hp, rfl⟩ := List.mem_map.mp h
  exact ⟨rfl, hp, rfl⟩

theorem Ready_workers (s0 : State) (h : SetupInv s0) (w : Worker)
    (hw : w ∈ (Ready s0).workers) :
    w.running = true ∧ mapGet (s0.wired w.kind) w.name = some w.ch := by
  simp only [Ready, h.workers, List.nil_append, List.mem_append] at hw
  rcases hw with ((hw | hw) | hw) | hw
  · have := mem_spawn _ _ _ hw
    exact ⟨this.2.2, by rw [this.1]; exact h.entries Kind.error _ _ this.2.1⟩
  · have := mem_spawn _ _ _ hw
    exact ⟨this.2.2, by rw [this.1]; exact h.entries Kind.warn _ _ this.2.1⟩
  · have := mem_spawn _ _ _ hw
    exact ⟨this.2.2, by rw [this.1]; exact h.entries Kind.close _ _ this.2.1⟩
  · have := mem_spawn _ _ _ hw
    exact ⟨this.2.2, by rw [this.1]; exact h.entries Kind.info _ _ this.2.1⟩

theorem Ready_has_worker (s0 : State) (k : Kind) (name : String) (c : Nat)
    (hw : mapGet (s0.wired k) name = some c) :
    ∃ i : Nat, (Ready s0).workers[i]? = some (Worker.mk k name c true) := by
  apply List.mem_iff_getElem?.mp
  have hm := mem_of_mapGet _ _ _ hw
  have hs : (⟨k, name, c, true⟩ : Worker) ∈ spawn k (s0.wired k) :=
    List.mem_map.mpr ⟨(name, c), hm, rfl⟩
  simp only [Ready, List.mem_append]
  cases k
  · exact Or.inl (Or.inl (Or.inl (Or.inr hs)))
  · exact Or.inl (Or.inl (Or.inr hs))
  · exact Or.inl (Or.inr hs)
  · exact Or.inr hs

theorem Delivered.delivered_step {s0 s s' : State} {k : Kind} {name : String} {c q : Nat}
    {sent : List GoError} (h0 : SetupInv s0) (hr : RunInv s0 s)
    (hw : mapGet (s0.wired k) name = some c) (hq : (s0.subs k).count q = 1)
    (hother : ∀ k', k' ≠ k → k' ≠ Kind.info → q ∉ s0.subs k')
    (hd : Delivered name c q sent s) (a : Action) (ha : a.isRun = true)
    (hstep : step a s = some s') :
    Delivered name c q (sent ++ (a.errSent k name).toList) s' := by
  unfold Jorum.step at hstep
  split at hstep
  · cases hstep
  · cases a with
    | pushErr k1 n1 e =>
      simp only [pushErr] at hstep
      split at hstep
      · cases hstep
      · split at hstep
        · cases hstep
        · rename_i ch hch
          split at hstep
          · cases hstep
            rw [hr.wired] at hch
            unfold Delivered at hd ⊢
            by_cases hsame : k1 = k ∧ n1 = name
            · have hc : ch = c := by
                rw [hsame.1, hsame.2, hw] at hch
                exact (Option.some.inj hch).symm
              subst hc
              simp only [Action.errSent, hsame, and_self, if_true, Option.toList, Heap.send,
                Heap.set, List.map_append, ← List.append_assoc, hd]
            · have hc : ¬ c = ch := by
                intro e
                subst e
                have := h0.inj k1 k n1 name c hch hw
                exact hsame this
              simpa [Action.errSent, hsame, Heap.send, Heap.set, hc] using hd
          · cases hstep
    | pushInfo n1 m =>
      simp only [pushInfo] at hstep
      split at hstep
      · cases hstep
      · split at hstep
        · cases hstep
          simpa [Action.errSent] using hd
        · cases hstep
    | recv i =>
      simp only at hstep
      split at hstep
      · cases hstep
      · rename_i w hwi
        simp only [Action.errSent, Option.toList, List.append_nil]
        split at hstep
        · have hmem : w ∈ (Ready s0).workers := by
            rw [← hr.workers]
            exact List.getElem?_mem hwi
          have hwired := (Ready_workers s0 h0 w hmem).2
          by_cases hinfo : w.kind = Kind.info
          · obtain ⟨ev, rest, -, -, -, e1, e3⟩ := recvCase_info w s s' hinfo hstep
            unfold Delivered at hd ⊢
            rw [e1, e3]
            exact hd
          · obtain ⟨ev, rest, hq0, e1, e3, -, -⟩ := recvCase_err w s s' hinfo hstep
            unfold Delivered at hd ⊢
            rw [e1, e3 q, hr.subs]
            by_cases hc : w.ch = c
            · have := h0.inj w.kind k w.name name c (hc ▸ hwired) hw
              rw [hc] at hq0
              rw [hq0] at hd
              rw [this.1, hq, this.2, hc, ← hd]
              simp [Heap.set, List.filter_append]
            · have hc2 : ¬ c = w.ch := fun e => hc e.symm
              by_cases hkk : w.kind = k
              · have hne : ¬ w.name = name := by
                  intro e
                  rw [hkk, e, hw] at hwired
                  exact hc (Option.some.inj hwired).symm
                rw [hkk, hq, ← hd]
                simp [Heap.set, hc2, List.filter_append, hne]
              · rw [List.count_eq_zero_of_not_mem (hother w.kind hkk hinfo), ← hd]
                simp [Heap.set, hc2]
        · cases hstep
    | abort i =>
      simp only at hstep
      split at hstep
      · cases hstep
      · split at hstep
        · rename_i hc
          simp [hr.abortOpen] at hc
        · cases hstep
    | register name service => cases ha
    | onError ch => cases ha
    | onWarn ch => cases ha
    | onClose ch => cases ha
    | onInfo ch => cases ha
    | ready => cases ha
    | closeCall order => cases ha
    | closeIter => cases ha

theorem DeliveredInfo.info_step {s0 s s' : State} {name : String} {c q : Nat}
    {sent : List String} (h0 : SetupInv s0) (hr : RunInv s0 s)
    (hw : mapGet (s0.wired Kind.info) name = some c) (hq : (s0.subs Kind.info).count q = 1)
    (hd : DeliveredInfo name c q sent s) (a : Action) (ha : a.isRun = true)
    (hstep : step a s = some s') :
    DeliveredInfo name c q (sent ++ (a.infoSent name).toList) s' := by
  unfold Jorum.step at hstep
  split at hstep
  · cases hstep
  · cases a with
    | pushErr k1 n1 e =>
      simp only [pushErr] at hstep
      split at hstep
      · cases hstep
      · split at hstep
        · cases hstep
        · split at hstep
          · cases hstep
            simpa [Action.infoSent] using hd
          · cases hstep
    | pushInfo n1 m =>
      simp only [pushInfo] at hstep
      split at hstep
      · cases hstep
      · rename_i ch hch
        split at hstep
        · cases hstep
          have hwi : s.servicesInfoChs = s0.wired Kind.info := hr.wired Kind.info
          rw [hwi] at hch
          unfold DeliveredInfo at hd ⊢
          by_cases hsame : n1 = name
          · have hc : ch = c := by
              rw [hsame, hw] at hch
              exact (Option.some.inj hch).symm
            subst hc
            simp only [Action.infoSent, hsame, if_true, Option.toList, Heap.send,
              Heap.set, List.map_append, ← List.append_assoc, hd]
          · have hc : ¬ c = ch := by
              intro e
              subst e
              have := h0.inj Kind.info Kind.info n1 name c hch hw
              exact hsame this.2
            simpa [Action.infoSent, hsame, Heap.send, Heap.set, hc] using hd
        · cases hstep
    | recv i =>
      simp only at hstep
      split at hstep
      · cases hstep
      · rename_i w hwi
        simp only [Action.infoSent, Option.toList, List.append_nil]
        split at hstep
        · have hmem : w ∈ (Ready s0).workers := by
            rw [← hr.workers]
            exact List.getElem?_mem hwi
          have hwired := (Ready_workers s0 h0 w hmem).2
          by_cases hinfo : w.kind = Kind.info
          · obtain ⟨ev, rest, hq0, e1, e3, -, -⟩ := recvCase_info w s s' hinfo hstep
            unfold DeliveredInfo at hd ⊢
            have hsubs : s.infoChs = s0.subs Kind.info := hr.subs Kind.info
            rw [e1, e3 q, hsubs, hq]
            rw [hinfo] at hwired
            by_cases hc : w.ch = c
            · have := h0.inj Kind.info Kind.info w.name name c (hc ▸ hwired) hw
              rw [hc] at hq0
              rw [hq0] at hd
              rw [this.2, hc, ← hd]
              simp [Heap.set, List.filter_append]
            · have hc2 : ¬ c = w.ch := fun e => hc e.symm
              have hne : ¬ w.name = name := by
                intro e
                rw [e, hw] at hwired
                exact hc (Option.some.inj hwired).symm
              rw [← hd]
              simp [Heap.set, hc2, List.filter_append, hne]
          · obtain ⟨ev, rest, -, -, -, e1, e3⟩ := recvCase_err w s s' hinfo hstep
            unfold DeliveredInfo at hd ⊢
            rw [e1, e3]
            exact hd
        · cases hstep
    | abort i =>
      simp only at hstep
      split at hstep
      · cases hstep
      · split at hstep
        · rename_i hc
          simp [hr.abortOpen] at hc
        · cases hstep
    | register name service => cases ha
    | onError ch => cases ha
    | onWarn ch => cases ha
    | onClose ch => cases ha
    | onInfo ch => cases ha
    | ready => cases ha
    | closeCall order => cases ha
    | closeIter => cases ha

theorem Delivered.delivered_exec {s0 s s' : State} {k : Kind} {name : String} {c q : Nat}
    {sent : List GoError} (h0 : SetupInv s0) (hr : RunInv s0 s)
    (hw : mapGet (s0.wired k) name = some c) (hq : (s0.subs k).count q = 1)
    (hother : ∀ k', k' ≠ k → k' ≠ Kind.info → q ∉ s0.subs k')
    (hd : Delivered name c q sent s) (acts : List Action) (ha : ∀ a ∈ acts, a.isRun = true)
    (hex : exec acts s = some s') : Delivered name c q (sent ++ sentErr k name acts) s' := by
  induction acts generalizing s sent with
  | nil =>
    simp only [Jorum.exec, Option.some.injEq] at hex
    simpa [sentErr] using hex ▸ hd
  | cons a acts ih =>
    simp only [Jorum.exec] at hex
    cases hst : Jorum.step a s with
    | none => simp [hst] at hex
    | some s1 =>
      rw [hst] at hex
      have ha1 := ha a (List.mem_cons_self _ _)
      have := ih (hr.run_step a ha1 hst) (hd.delivered_step h0 hr hw hq hother a ha1 hst)
        (fun b hb => ha b (List.mem_cons_of_mem _ hb)) hex
      have e : sent ++ sentErr k name (a :: acts)
          = sent ++ (a.errSent k name).toList ++ sentErr k name acts := by
        simp only [sentErr, List.filterMap_cons]
        cases a.errSent k name <;> simp
      rw [e]
      exact this

theorem DeliveredInfo.info_exec {s0 s s' : State} {name : String} {c q : Nat}
    {sent : List String} (h0 : SetupInv s0) (hr : RunInv s0 s)
    (hw : mapGet (s0.wired Kind.info) name = some c) (hq : (s0.subs Kind.info).count q = 1)
    (hd : DeliveredInfo name c q sent s) (acts : List Action)
    (ha : ∀ a ∈ acts, a.isRun = true)
    (hex : exec acts s = some s') : DeliveredInfo name c q (sent ++ sentInfo name acts) s' := by
  induction acts generalizing s sent with
  | nil =>
    simp only [Jorum.exec, Option.some.injEq] at hex
    simpa [sentInfo] using hex ▸ hd
  | cons a acts ih =>
    simp only [Jorum.exec] at hex
    cases hst : Jorum.step a s with
    | none => simp [hst] at hex
    | some s1 =>
      rw [hst] at hex
      have ha1 := ha a (List.mem_cons_self _ _)
      have := ih (hr.run_step a ha1 hst) (hd.info_step h0 hr hw hq a ha1 hst)
        (fun b hb => ha b (List.mem_cons_of_mem _ hb)) hex
      have e : sent ++ sentInfo name (a :: acts)
          = sent ++ (a.infoSent name).toList ++ sentInfo name acts := by
        simp only [sentInfo, List.filterMap_cons]
        cases a.infoSent name <;> simp
      rw [e]
      exact this

/-- With the abort signal open, the worker of a wired queue can take the
receive case once for every value in its queue. -/
theorem drain {s0 : State} {k : Kind} {name : String} {c i : Nat} (hk : k ≠ Kind.info)
    (n : Nat) (s : State) (hr : RunInv s0 s)
    (hwi : (Ready s0).workers[i]? = some (Worker.mk k name c true))
    (hlen : (s.errQ c).length = n) :
    ∃ s', exec (List.replicate n (Action.recv i)) s = some s' ∧ s'.errQ c = [] := by
  induction n generalizing s with
  | zero =>
    exact ⟨s, rfl, List.length_eq_zero.mp hlen⟩
  | succ n ih =>
    cases hq : s.errQ c with
    | nil => simp [hq] at hlen
    | cons ev rest =>
      have hrecv : ∃ s1, recvCase (Worker.mk k name c true) s = some s1 := by
        cases k <;> simp [recvCase, hq] at hk ⊢
      obtain ⟨s1, hs1⟩ := hrecv
      have hstep : step (Action.recv i) s = some s1 := by
        unfold Jorum.step
        rw [if_neg (by simp [hr.alive])]
        simp only [hr.workers, hwi]
        simpa using hs1
      obtain ⟨ev', rest', hq', e1, -⟩ := recvCase_err _ s s1 hk hs1
      simp only [hq, List.cons.injEq] at hq'
      have hlen1 : (s1.errQ c).length = n := by
        rw [e1]
        simp only [Heap.set, if_true]
        rw [← hq'.2]
        simpa [hq] using hlen
      obtain ⟨s', hex, h1⟩ := ih s1 (hr.run_step (Action.recv i) rfl hstep) hlen1
      refine ⟨s', ?_, h1⟩
      simp only [List.replicate_succ, Jorum.exec, hstep]
      exact hex

theorem drainInfo {s0 : State} {name : String} {c i : Nat}
    (n : Nat) (s : State) (hr : RunInv s0 s)
    (hwi : (Ready s0).workers[i]? = some (Worker.mk Kind.info name c true))
    (hlen : (s.strQ c).length = n) :
    ∃ s', exec (List.replicate n (Action.recv i)) s = some s' ∧ s'.strQ c = [] := by
  induction n generalizing s with
  | zero =>
    exact ⟨s, rfl, List.length_eq_zero.mp hlen⟩
  | succ n ih =>
    cases hq : s.strQ c with
    | nil => simp [hq] at hlen
    | cons ev rest =>
      have hrecv : ∃ s1, recvCase (Worker.mk Kind.info name c true) s = some s1 := by
        simp [recvCase, hq]
      obtain ⟨s1, hs1⟩ := hrecv
      have hstep : step (Action.recv i) s = some s1 := by
        unfold Jorum.step
        rw [if_neg (by simp [hr.alive])]
        simp only [hr.workers, hwi]
        simpa using hs1
      obtain ⟨ev', rest', hq', e1, -⟩ := recvCase_info _ s s1 rfl hs1
      simp only [hq, List.cons.injEq] at hq'
      have hlen1 : (s1.strQ c).length = n := by
        rw [e1]
        simp only [Heap.set, if_true]
        rw [← hq'.2]
        simpa [hq] using hlen
      obtain ⟨s', hex, h1⟩ := ih s1 (hr.run_step (Action.recv i) rfl hstep) hlen1
      refine ⟨s', ?_, h1⟩
      simp only [List.replicate_succ, Jorum.exec, hstep]
      exact hex

theorem sentErr_recv (k : Kind) (name : String) (n i : Nat) :
    sentErr k name (List.replicate n (Action.recv i)) = [] := by
  induction n with
  | zero => rfl
  | succ n _ => simp [sentErr, List.replicate_succ, Action.errSent]

theorem sentInfo_recv (name : String) (n i : Nat) :
    sentInfo name (List.replicate n (Action.recv i)) = [] := by
  induction n with
  | zero => rfl
  | succ n _ => simp [sentInfo, List.replicate_succ, Action.infoSent]

/-- C7, as stated, fails.  A queue subscribed twice through `OnError` receives
every event twice: after one push of "e1" it holds two events.  An error pushed
after `Ready` is dropped when `Close` closes the abort signal before the worker
has received it: the error stays in the wired queue, the subscriber's queue is
empty and the worker cannot take the receive case any more.  A queue subscribed
through `OnError` and `OnWarn` receives under the name of "A" the warning "w1",
which "A" never pushed onto its error queue.  And a queue subscribed after the
error "e1" was dispatched never receives it. -/
theorem C7_duplicated_or_dropped :
    (exec twiceSubscribed State.init).map (fun s => s.errorEventQ 5)
      = some [⟨"A", some (Err.errorString "e1")⟩, ⟨"A", some (Err.errorString "e1")⟩] ∧
    (exec closedWhilePending State.init).map (fun s => s.errQ 0)
      = some [some (Err.errorString "e1")] ∧
    (exec closedWhilePending State.init).map (fun s => s.errorEventQ 5) = some [] ∧
    (exec (closedWhilePending ++ [Action.recv 0]) State.init).isNone = true ∧
    (exec alsoWarnSubscribed State.init).map (fun s => (s.errorChs, s.errorEventQ 5))
      = some ([5], [⟨"A", some (Err.errorString "w1")⟩]) ∧
    (exec lateSubscribed State.init).map (fun s => (s.errorChs, s.errQ 0, s.errorEventQ 5))
      = some ([5], [], []) := by
  refine ⟨?_, ?_, ?_, ?_, ?_, ?_⟩ <;> decide

/-- C7, amended: per-producer FIFO while the system runs.  Let `s0` be a state
of the setup (registrations, subscriptions and sends only), let `Ready` be
called in `s0`, and let `s` be reached from there by any interleaving of sends
of the services and steps of the dispatch workers, `Close` not being called;
subscriber queues never block.  For every category `k` of error type, every
service `name` with a wired queue `c` of that category and every queue `q` that
was subscribed exactly once to `k` and to no other category of error type:

* the events on `q` that carry `name`, followed by the values still pending in
  `c` wrapped with `name`, are exactly the values pending in `c` at `Ready`
  followed by those `name` has pushed since, each wrapped with `name`, in the
  order of the pushes: nothing is lost, repeated, reordered or tagged with
  another name;
* the worker of `c` can take the receive case once for each pending value, and
  then `q` holds all of them.

The same holds for the info category and a queue subscribed exactly once
through `OnInfo`. -/
theorem C7_delivery_in_order (setup run : List Action) (s0 s : State)
    (hsetup : ∀ a ∈ setup, a.isSetup = true) (h0 : exec setup State.init = some s0)
    (hrun : ∀ a ∈ run, a.isRun = true) (h1 : exec run (Ready s0) = some s) :
    (∀ k name c q, k ≠ Kind.info → mapGet (s0.wired k) name = some c →
      (s0.subs k).count q = 1 → (∀ k', k' ≠ k → k' ≠ Kind.info → q ∉ s0.subs k') →
      (s.errorEventQ q).filter (fun ev => decide (ev.Name = name))
          ++ (s.errQ c).map (fun e => (⟨name, e⟩ : ErrorEvent))
        = (s0.errQ c ++ sentErr k name run).map (fun e => (⟨name, e⟩ : ErrorEvent)) ∧
      ∃ i s', exec (List.replicate (s.errQ c).length (Action.recv i)) s = some s' ∧
        (s'.errorEventQ q).filter (fun ev => decide (ev.Name = name))
          = (s0.errQ c ++ sentErr k name run).map (fun e => (⟨name, e⟩ : ErrorEvent))) ∧
    (∀ name c q, mapGet s0.servicesInfoChs name = some c → s0.infoChs.count q = 1 →
      (s.infoEventQ q).filter (fun ev => decide (ev.Name = name))
          ++ (s.strQ c).map (fun m => (⟨name, m⟩ : InfoEvent))
        = (s0.strQ c ++ sentInfo name run).map (fun m => (⟨name, m⟩ : InfoEvent)) ∧
      ∃ i s', exec (List.replicate (s.strQ c).length (Action.recv i)) s = some s' ∧
        (s'.infoEventQ q).filter (fun ev => decide (ev.Name = name))
          = (s0.strQ c ++ sentInfo name run).map (fun m => (⟨name, m⟩ : InfoEvent))) := by
  have hs0 : SetupInv s0 := SetupInv.init.setup_exec setup hsetup h0
  have hr1 : RunInv s0 (Ready s0) := RunInv.ready hs0
  have hr : RunInv s0 s := hr1.run_exec run hrun h1
  constructor
  · intro k name c q hk hw hq hother
    have hbase : Delivered name c q (s0.errQ c) (Ready s0) := by
      unfold Delivered
      have : (Ready s0).errorEventQ q = [] := hs0.errorEventQ q
      rw [this]
      rfl
    have hd := hbase.delivered_exec hs0 hr1 hw hq hother run hrun h1
    refine ⟨hd, ?_⟩
    obtain ⟨i, hi⟩ := Ready_has_worker s0 k name c hw
    obtain ⟨s', hex, hempty⟩ := drain hk (s.errQ c).length s hr hi rfl
    refine ⟨i, s', hex, ?_⟩
    have hd' := hd.delivered_exec hs0 hr hw hq hother _ (by
      intro a ha
      rw [List.eq_of_mem_replicate ha]
      rfl) hex
    unfold Delivered at hd'
    rw [hempty, sentErr_recv] at hd'
    simpa using hd'
  · intro name c q hw hq
    have hbase : DeliveredInfo name c q (s0.strQ c) (Ready s0) := by
      unfold DeliveredInfo
      have : (Ready s0).infoEventQ q = [] := hs0.infoEventQ q
      rw [this]
      rfl
    have hd := hbase.info_exec hs0 hr1 hw hq run hrun h1
    refine ⟨hd, ?_⟩
    obtain ⟨i, hi⟩ := Ready_has_worker s0 Kind.info name c hw
    obtain ⟨s', hex, hempty⟩ := drainInfo (s.strQ c).length s hr hi rfl
    refine ⟨i, s', hex, ?_⟩
    have hd' := hd.info_exec hs0 hr hw hq _ (by
      intro a ha
      rw [List.eq_of_mem_replicate ha]
      rfl) hex
    unfold DeliveredInfo at hd'
    rw [hempty, sentInfo_recv] at hd'
    simpa using hd'

theorem C7_delivery_in_order_witness :
    exec fifoSetup State.init = some fifoReadyState ∧
    exec fifoRun (Ready fifoReadyState) = some fifoState ∧
    fifoState.errorEventQ 5 = [⟨"A", some (Err.errorString "e0")⟩] ∧
    fifoState.errQ 0 = [some (Err.errorString "e1"), some (Err.errorString "e2")] ∧
    ((fifoState.errorEventQ 5).filter (fun ev => decide (ev.Name = "A"))
        ++ (fifoState.errQ 0).map (fun e => (⟨"A", e⟩ : ErrorEvent))
      = (fifoReadyState.errQ 0 ++ sentErr Kind.error "A" fifoRun).map
          (fun e => (⟨"A", e⟩ : ErrorEvent)) ∧
      ∃ i s', exec (List.replicate (fifoState.errQ 0).length (Action.recv i)) fifoState
          = some s' ∧
        (s'.errorEventQ 5).filter (fun ev => decide (ev.Name = "A"))
          = (fifoReadyState.errQ 0 ++ sentErr Kind.error "A" fifoRun).map
              (fun e => (⟨"A", e⟩ : ErrorEvent))) :=
  ⟨rfl, rfl, rfl, rfl,
    (C7_delivery_in_order fifoSetup fifoRun fifoReadyState fifoState (by decide) rfl
      (by decide) rfl).1 Kind.error "A" 0 5 (by decide) rfl (by decide)
      (fun k' h1 h2 => by cases k' <;> first | exact absurd rfl h1 | exact absurd rfl h2 | decide)⟩

end Jorum
